import Mathlib

/-!
A shallow embedding of the `super-manager` resource managers
(`managers/hook_manager.py`, `managers/skill_manager.py`,
`managers/mcp_server_manager.py`, `commands/discover.py`,
`shared/config_file_handler.py`, `shared/file_operations.py`)
together with theorems settling the specification claims about them.

Conventions of the embedding:
* Python dicts that are used as string-keyed maps become association lists
  (`List (String × _)`); Python dict insertion order is preserved by list
  order, and `dict.setdefault` of a fresh key appends at the end.
* Filesystem and OS facts (`os.path.isfile`, `os.path.normpath`,
  environment-variable substitution, `hash`, timestamps) are oracles
  collected in an `Env` structure.
* Operations return their structured `{success, message}` result together
  with the new store contents and, where claims need it, a trace of the
  side effects performed (file moves, process signals, file writes).
-/

set_option maxRecDepth 4000

namespace SuperManager

/-- Python `\s` on ASCII (also `str.split()` separators): space, tab,
newline, carriage return, vertical tab, form feed. -/
def pyIsSpace (c : Char) : Bool :=
  c == ' ' || c == '\t' || c == '\n' || c == '\r' ||
    c == Char.ofNat 11 || c == Char.ofNat 12

/-- `os.path.basename`, Windows flavor: the suffix after the last `/` or `\`
(POSIX `basename` only splits on `/`; the hook commands in this repository
use forward slashes, where the two agree). -/
def basenameChars (s : List Char) : List Char :=
  (s.reverse.takeWhile (fun c => !(c == '/' || c == '\\'))).reverse

/-- The root part of `os.path.splitext`: drop the extension that begins at
the last dot, except when every character before that dot is itself a dot
(CPython keeps names such as `.bashrc` or `...` whole). -/
def splitextRoot (s : List Char) : List Char :=
  let r := s.reverse
  let afterDot := r.takeWhile (fun c => c != '.')
  if afterDot.length == r.length then s
  else
    let root := (r.drop (afterDot.length + 1)).reverse
    if root.any (fun c => c != '.') then root else s

/-- A character stripped by Python `str.strip('"\'')`. -/
def isQuoteChar (c : Char) : Bool := c == '"' || c == Char.ofNat 39

/-- Python `str.strip('"\'')`. -/
def stripQuotes (s : List Char) : List Char :=
  ((s.dropWhile isQuoteChar).reverse.dropWhile isQuoteChar).reverse

/-- Leftmost match of `re.search(r'"([^"]+)"', s)`: the content between the
first pair of double quotes that encloses at least one character (an
immediately adjacent pair `""` makes the search resume after its first
quote, exactly as regex backtracking does). -/
def firstQuoted : List Char → Option (List Char)
  | [] => none
  | c :: rest =>
    if c == '"' then
      let content := rest.takeWhile (fun x => x != '"')
      match rest.dropWhile (fun x => x != '"') with
      | [] => none
      | _ :: _ => if content.isEmpty then firstQuoted rest else some content
    else firstQuoted rest

/-- Leftmost match of `re.search(r'(?:node|bash)\s+(\S+)', s)`: the maximal
non-whitespace token after the first occurrence of the substring `node` or
`bash` that is followed by at least one whitespace character and a
non-whitespace one. -/
def nodeBashToken : List Char → Option (List Char)
  | [] => none
  | c :: rest =>
    if (("node").data).isPrefixOf (c :: rest) ||
        (("bash").data).isPrefixOf (c :: rest) then
      let after := (c :: rest).drop 4
      let spaces := after.takeWhile pyIsSpace
      let tok := (after.dropWhile pyIsSpace).takeWhile (fun x => !pyIsSpace x)
      if !spaces.isEmpty && !tok.isEmpty then some tok else nodeBashToken rest
    else nodeBashToken rest

/-- Helper for `pySplitWS`: single pass with the current (reversed) token. -/
def pySplitWSAux : List Char → List Char → List (List Char)
  | [], acc => if acc.isEmpty then [] else [acc.reverse]
  | c :: rest, acc =>
    if pyIsSpace c then
      if acc.isEmpty then pySplitWSAux rest [] else acc.reverse :: pySplitWSAux rest []
    else pySplitWSAux rest (c :: acc)

/-- Python `str.split()` with no argument: maximal non-whitespace runs. -/
def pySplitWS (s : List Char) : List (List Char) := pySplitWSAux s []

/-- OS-level facts the Python code consults; passed explicitly so that every
manager operation is a pure function of its inputs. -/
structure Env where
  /-- `abs(hash(s))` for Python's (salted) string hash. -/
  hashFn : String → Nat
  /-- `os.path.isfile` / `os.path.exists` on the file paths the managers touch. -/
  isfile : String → Bool
  /-- `$HOME` / `%USERPROFILE%` substitution followed by `os.path.normpath`,
  as performed by `_extract_file_path`. -/
  resolvePath : String → String
  /-- `os.path.normpath` alone, as used by `skill_manager.add_item`. -/
  normPath : String → String
  /-- `ARCHIVE_DIR` from `configuration_paths.py`. -/
  archiveDir : String
  /-- `datetime.datetime.now().strftime("%Y%m%d_%H%M%S")`. -/
  timestamp : String

/-- `hook_manager._extract_hook_name`: the quoted path segment if any,
otherwise the token after `node`/`bash` (quotes stripped), otherwise a
hash-derived fallback name; basename taken and extension stripped. -/
def managerExtractHookName (env : Env) (command : String) : String :=
  match firstQuoted command.data with
  | some p => ⟨splitextRoot (basenameChars p)⟩
  | none =>
    match nodeBashToken command.data with
    | some t => ⟨splitextRoot (basenameChars (stripQuotes t))⟩
    | none => ("hook-") ++ toString (env.hashFn command % 100000)

/-- `discover._extract_hook_name`: same as the manager's version but the
fallback is `None` instead of a hash-derived name. -/
def discoverExtractHookName (command : String) : Option String :=
  match firstQuoted command.data with
  | some p => some ⟨splitextRoot (basenameChars p)⟩
  | none =>
    match nodeBashToken command.data with
    | some t => some ⟨splitextRoot (basenameChars (stripQuotes t))⟩
    | none => none

/-- `hook_manager._extract_file_path`: the quoted segment if any, otherwise
the final whitespace-delimited token, resolved (`$HOME` substitution plus
`normpath`). -/
def extractFilePath (env : Env) (command : String) : Option String :=
  match firstQuoted command.data with
  | some p => some (env.resolvePath ⟨p⟩)
  | none =>
    match (pySplitWS command.data).getLast? with
    | some t => some (env.resolvePath ⟨t⟩)
    | none => none

/-- `hook_manager._check_file_exists`. -/
def checkFileExists (env : Env) (command : String) : Bool :=
  match extractFilePath env command with
  | none => false
  | some p => env.isfile p

/-- The name derivation as the specification sentence words it (for claim
C9): basename-without-extension of the double-quoted path segment when the
command contains one, otherwise basename-without-extension of the final
whitespace-delimited token. -/
def specDerivedName (command : String) : Option String :=
  match firstQuoted command.data with
  | some p => some ⟨splitextRoot (basenameChars p)⟩
  | none =>
    match (pySplitWS command.data).getLast? with
    | some t => some ⟨splitextRoot (basenameChars t)⟩
    | none => none

/-- `os.path.basename` on a `String`. -/
def basenameStr (s : String) : String := ⟨basenameChars s.data⟩

/-- Python `str.strip()` (whitespace at both ends). -/
def pyStrip (s : String) : String :=
  ⟨((s.data.dropWhile pyIsSpace).reverse.dropWhile pyIsSpace).reverse⟩

/-- `str(x)` for an `Optional[str]`: `None` prints as `"None"`. -/
def optPathStr : Option String → String
  | some p => p
  | none => ("None")

/-- `VALID_HOOK_EVENTS` from `configuration_paths.py`. -/
def VALID_HOOK_EVENTS : List String :=
  ["SessionStart", "SessionEnd", "UserPromptSubmit",
   "PreToolUse", "PostToolUse", "PreCompact",
   "Stop", "SubAgentSop", "PermissionRequest"]

/-- One `{"type": "command", "command": c, "async": a}` entry inside a
matcher group of the settings hooks section. A missing `async` key reads as
`false` and the key is only written when true, so a `Bool` field is a
faithful model of the JSON. -/
structure HookEntry where
  command : String
  async : Bool
deriving DecidableEq, Repr

/-- One matcher group of the settings hooks section. -/
structure MatcherGroup where
  matcher : String
  hooks : List HookEntry
deriving DecidableEq, Repr

/-- The `hooks` section of `settings.json`: event name → matcher groups, as
an association list in dict insertion order. -/
abbrev HooksSection := List (String × List MatcherGroup)

/-- One entry of `hook-registry.json` (all fields present after the
defaulting reads of `_read_registry` / writes of `_write_registry`). -/
structure RegHook where
  name : String
  event : String
  matcher : String
  async : Bool
  managed : Bool
  description : String
  command : String
deriving DecidableEq, Repr

/-- A flattened settings hook as produced by `_read_settings_hooks`. -/
structure FlatHook where
  name : String
  event : String
  matcher : String
  command : String
  async : Bool
deriving DecidableEq, Repr

/-- The flattened view of one settings hook entry, as
`_read_settings_hooks` builds it. -/
def mkFlat (env : Env) (event matcher : String) (h : HookEntry) : FlatHook :=
  { name := managerExtractHookName env h.command
    event := event
    matcher := matcher
    command := h.command
    async := h.async }

/-- The flattened hooks of one matcher group. -/
def groupFlats (env : Env) (event : String) (g : MatcherGroup) : List FlatHook :=
  g.hooks.map (mkFlat env event g.matcher)

/-- The flattened hooks of one event bucket. -/
def eventFlats (env : Env) (event : String) (gs : List MatcherGroup) : List FlatHook :=
  (gs.map (groupFlats env event)).flatten

/-- `hook_manager._read_settings_hooks`: flatten the event → matcher group →
entry nesting, deriving each entry's name from its command string. -/
def readSettingsHooks (env : Env) (hs : HooksSection) : List FlatHook :=
  (hs.map fun eg => eventFlats env eg.1 eg.2).flatten

/-- `hook_manager._find_registry_entry` (first entry with the name). -/
def findRegistryEntry (name : String) (registry : List RegHook) : Option RegHook :=
  registry.find? (fun h => h.name == name)

/-- `hook_manager._find_settings_entry` (first flattened hook with the name). -/
def findSettingsEntry (name : String) (l : List FlatHook) : Option FlatHook :=
  l.find? (fun h => h.name == name)

/-- Inner loop of `_add_hook_to_settings` over one event's matcher groups:
append the entry to the first group with the same matcher (unless its command
is already present there), else append a fresh group at the end. -/
def addToGroups (matcher command : String) (isAsync : Bool) :
    List MatcherGroup → List MatcherGroup
  | [] => [⟨matcher, [⟨command, isAsync⟩]⟩]
  | g :: gs =>
    if g.matcher == matcher then
      (if (g.hooks.map HookEntry.command).contains command then g
       else { g with hooks := g.hooks ++ [⟨command, isAsync⟩] }) :: gs
    else g :: addToGroups matcher command isAsync gs

/-- `hook_manager._add_hook_to_settings` on the hooks section (`setdefault`
appends a fresh event key at the end, preserving dict order). -/
def addHookToSettings (event matcher command : String) (isAsync : Bool) :
    HooksSection → HooksSection
  | [] => [(event, [⟨matcher, [⟨command, isAsync⟩]⟩])]
  | eg :: rest =>
    if eg.1 == event then (eg.1, addToGroups matcher command isAsync eg.2) :: rest
    else eg :: addHookToSettings event matcher command isAsync rest

/-- One event's part of `_remove_hook_from_settings`: drop entries whose
command matches, then drop groups left empty. -/
def removeFromGroups (command : String) (gs : List MatcherGroup) : List MatcherGroup :=
  (gs.map fun g => { g with hooks := g.hooks.filter (fun h => h.command != command) }).filter
    (fun g => !g.hooks.isEmpty)

/-- The full cleanup pass of `_remove_hook_from_settings`: remove the command
everywhere, then prune empty groups and empty event buckets. -/
def removeHookCleanup (command : String) (hs : HooksSection) : HooksSection :=
  (hs.map fun eg => (eg.1, removeFromGroups command eg.2)).filter (fun eg => !eg.2.isEmpty)

/-- Whether some settings entry carries exactly this command string. -/
def settingsHasCommand (command : String) (hs : HooksSection) : Bool :=
  hs.any fun eg => eg.2.any fun g => g.hooks.any fun h => h.command == command

/-- `hook_manager._remove_hook_from_settings`: the file is rewritten (with
pruning) only when some entry was actually removed; otherwise the stored
content is untouched. Returns the stored content and the `removed` flag. -/
def removeHookFromSettings (command : String) (hs : HooksSection) : HooksSection × Bool :=
  if settingsHasCommand command hs then (removeHookCleanup command hs, true)
  else (hs, false)

/-- One row of `hook_manager.list_all`'s output. -/
structure HookItem where
  name : String
  event : String
  matcher : String
  async : Bool
  managed : Bool
  description : String
  command : String
  fileExists : Bool
  inSettings : Bool
  inRegistry : Bool
  status : String
deriving DecidableEq, Repr

/-- The registry loop of `hook_manager.list_all`: one item per registry
entry, `active` when a same-named settings hook exists, else `disabled`. -/
def mkRegistryItem (env : Env) (settingsHooks : List FlatHook) (rh : RegHook) : HookItem :=
  match findSettingsEntry rh.name settingsHooks with
  | some sh =>
    let command := if rh.command == "" && sh.command != "" then sh.command else rh.command
    { name := rh.name, event := rh.event, matcher := rh.matcher, async := rh.async
      managed := rh.managed, description := rh.description, command := command
      fileExists := if command != "" then checkFileExists env command else false
      inSettings := true, inRegistry := true, status := ("active") }
  | none =>
    { name := rh.name, event := rh.event, matcher := rh.matcher, async := rh.async
      managed := rh.managed, description := rh.description, command := rh.command
      fileExists := if rh.command != "" then checkFileExists env rh.command else false
      inSettings := false, inRegistry := true, status := ("disabled") }

/-- The second loop of `hook_manager.list_all`: settings hooks whose name was
not seen yet become `orphaned-settings` items, each name emitted once. -/
def orphanItems (env : Env) : List FlatHook → List String → List HookItem
  | [], _ => []
  | sh :: rest, seen =>
    if seen.contains sh.name then orphanItems env rest seen
    else
      { name := sh.name, event := sh.event, matcher := sh.matcher, async := sh.async
        managed := false, description := "", command := sh.command
        fileExists := checkFileExists env sh.command
        inSettings := true, inRegistry := false, status := ("orphaned-settings") }
        :: orphanItems env rest (sh.name :: seen)

/-- `hook_manager.list_all` (the `items` list; the summary string is a pure
aggregation of it and is not modelled). -/
def hookListAll (env : Env) (settings : HooksSection) (registry : List RegHook) :
    List HookItem :=
  let settingsHooks := readSettingsHooks env settings
  (registry.map (mkRegistryItem env settingsHooks)) ++
    orphanItems env settingsHooks (registry.map RegHook.name)

/-- The `{success, message}` result every manager mutation returns. -/
structure MResult where
  success : Bool
  message : String
deriving DecidableEq, Repr

/-- The two hook stores: the settings hooks section and the hook registry. -/
structure HookState where
  settings : HooksSection
  registry : List RegHook
deriving DecidableEq, Repr

/-- `hook_manager.add_item`. -/
def hookAddItem (env : Env) (name event command description matcher : String)
    (isAsync : Bool) (st : HookState) : MResult × HookState :=
  if !(VALID_HOOK_EVENTS.contains event) then
    ({ success := false
       message := ("Invalid event '") ++ event ++ ("'. Must be one of: ") ++
         String.intercalate (", ") VALID_HOOK_EVENTS }, st)
  else if command == "" || pyStrip command == "" then
    ({ success := false, message := ("Command cannot be empty") }, st)
  else
    let name := if name == "" then managerExtractHookName env command else name
    match findRegistryEntry name st.registry with
    | some existing =>
      ({ success := false
         message := ("Hook '") ++ name ++ ("' already exists in registry (event=") ++
           existing.event ++ (")") }, st)
    | none =>
      let fileWarning :=
        if checkFileExists env command then ("")
        else (" [WARNING: script file not found: ") ++
          optPathStr (extractFilePath env command) ++ ("]")
      let settings1 := addHookToSettings event matcher command isAsync st.settings
      let registry1 := st.registry ++
        [{ name := name, event := event, matcher := matcher, async := isAsync
           managed := true, description := description, command := command }]
      ({ success := true
         message := ("Added hook '") ++ name ++ ("' (") ++ event ++ ("/") ++
           matcher ++ (")") ++ fileWarning },
       { settings := settings1, registry := registry1 })

/-- The result of `hook_manager.remove_item` (`archived` may be `None`). -/
structure RemoveResult where
  success : Bool
  message : String
  archived : Option String
deriving DecidableEq, Repr

/-- The destination path `file_operations.archive_file` moves a file to. -/
def archivePath (env : Env) (sourcePath reason : String) : String :=
  let archiveName := basenameStr sourcePath ++ ("_") ++ env.timestamp ++
    (if reason == "" then ("") else ("_") ++ reason)
  env.archiveDir ++ ("/") ++ archiveName

/-- `hook_manager.remove_item`. The third component lists the file moves
performed (`archive_file` is the only file operation; it moves, never
deletes). -/
def hookRemoveItem (env : Env) (name : String) (st : HookState) :
    RemoveResult × HookState × List (String × String) :=
  let command? : Option String :=
    match findRegistryEntry name st.registry with
    | some entry => some entry.command
    | none =>
      match findSettingsEntry name (readSettingsHooks env st.settings) with
      | some sh => some sh.command
      | none => none
  match command? with
  | none =>
    ({ success := false
       message := ("Hook '") ++ name ++ ("' not found in registry or settings")
       archived := none }, st, [])
  | some command =>
    let settings1 :=
      if command == "" then st.settings else (removeHookFromSettings command st.settings).1
    let archMoves :=
      if command == "" then (none, ([] : List (String × String)))
      else
        match extractFilePath env command with
        | none => (none, [])
        | some sp =>
          if env.isfile sp then
            let ap := archivePath env sp (("removed-hook-") ++ name)
            (some ap, [(sp, ap)])
          else (none, [])
    let registry1 := st.registry.filter (fun h => h.name != name)
    let msg := ("Removed hook '") ++ name ++ ("'") ++
      (match archMoves.1 with
       | some ap => (" (script archived to ") ++ ap ++ (")")
       | none => (""))
    ({ success := true, message := msg, archived := archMoves.1 },
     { settings := settings1, registry := registry1 }, archMoves.2)

/-- `hook_manager.enable_item`: re-add the registry command to the settings
hooks section and mark the (first) registry entry managed. -/
def setManagedTrueFirst (name : String) : List RegHook → List RegHook
  | [] => []
  | h :: t =>
    if h.name == name then { h with managed := true } :: t
    else h :: setManagedTrueFirst name t

/-- `hook_manager.enable_item`. -/
def hookEnableItem (env : Env) (name : String) (st : HookState) : MResult × HookState :=
  match findRegistryEntry name st.registry with
  | none => ({ success := false, message := ("Hook not found in registry: ") ++ name }, st)
  | some entry =>
    if entry.event == "" || entry.command == "" then
      ({ success := false
         message := ("Hook registry entry missing event/command: ") ++ name }, st)
    else
      ({ success := true, message := ("Enabled hook: ") ++ name },
       { settings := addHookToSettings entry.event entry.matcher entry.command
           entry.async st.settings
         registry := setManagedTrueFirst name st.registry })

/-- `hook_manager.disable_item`: look the name up among the flattened
settings hooks and remove that entry's command string from the live store
(the registry is untouched). -/
def hookDisableItem (env : Env) (name : String) (st : HookState) : MResult × HookState :=
  match findSettingsEntry name (readSettingsHooks env st.settings) with
  | none => ({ success := false, message := ("Hook not in settings.json: ") ++ name }, st)
  | some entry =>
    ({ success := true, message := ("Disabled hook: ") ++ name },
     { st with settings := (removeHookFromSettings entry.command st.settings).1 })

/-! ### Skill (Capability) manager, `managers/skill_manager.py` -/

/-- One entry of `skill-registry.json`, the fields `_write_registry`
persists. -/
structure SkillEntry where
  id : String
  name : String
  keywords : List String
  skillPath : String
  enabled : Bool
deriving DecidableEq, Repr

/-- `skill_manager._find_registry_entry` (first entry matching by id or
name). -/
def findSkillEntry (name : String) (l : List SkillEntry) : Option SkillEntry :=
  l.find? (fun s => s.id == name || s.name == name)

/-- A single-quote character as a string. -/
def squote : String := String.singleton (Char.ofNat 39)

/-- CPython `repr` of a string without backslashes (single quotes, switching
to double quotes when the string itself holds a single quote) — the only
shapes appearing in this code's messages. -/
def pyRepr (s : String) : String :=
  if s.data.contains (Char.ofNat 39) then ("\x22") ++ s ++ ("\x22")
  else squote ++ s ++ squote

/-- `skill_manager.add_item` (the `description` argument is accepted but not
persisted by `_write_registry`, exactly as in the source). -/
def skillAddItem (env : Env) (name skillPath : String)
    (keywords : Option (List String)) (st : List SkillEntry) :
    MResult × List SkillEntry :=
  if name == "" || pyStrip name == "" then
    ({ success := false, message := ("Skill name cannot be empty") }, st)
  else
    let keywords := keywords.getD [name]
    match findSkillEntry name st with
    | some _ =>
      ({ success := false
         message := ("Skill ") ++ pyRepr name ++ (" already exists in registry") }, st)
    | none =>
      let skillPath := if skillPath == "" then ("") else env.normPath skillPath
      let fileWarning :=
        if skillPath != "" && !env.isfile skillPath then
          (" [WARNING: SKILL.md not found at ") ++ skillPath ++ ("]")
        else ("")
      let st1 := st ++ [{ id := name, name := name, keywords := keywords
                          skillPath := skillPath, enabled := true }]
      ({ success := true, message := ("Added skill ") ++ pyRepr name ++ fileWarning }, st1)

/-- `skill_manager.remove_item`: drops the registry entries matching by id or
name. The third component lists the file moves performed — the source
performs none ("files on disk untouched"). -/
def skillRemoveItem (name : String) (st : List SkillEntry) :
    MResult × List SkillEntry × List (String × String) :=
  match findSkillEntry name st with
  | none =>
    ({ success := false
       message := ("Skill ") ++ pyRepr name ++ (" not found in registry") }, st, [])
  | some _ =>
    let st1 := st.filter (fun s => s.id != name && s.name != name)
    ({ success := true
       message := ("Removed skill ") ++ pyRepr name ++
         (" from registry (files on disk untouched)") },
     st1, [])

/-! ### Process supervisor, `managers/mcp_server_manager.py` (POSIX branch) -/

/-- A parsed `servers.yaml` entry with the defaults `read_yaml_servers`
seeds. -/
structure ServerConfig where
  description : String := ""
  enabled : Bool := false
  autoStart : Bool := false
  command : String := ""
  args : List String := []
  tags : List String := []
  keywords : List String := []
  url : String := ""
deriving DecidableEq, Repr

/-- A minimal JSON value model, used to state what `json.dump` writes. -/
inductive Json where
  | num (n : Nat)
  | str (s : String)
  | obj (fields : List (String × Json))

/-- Whether a JSON value is an object carrying the given key. -/
def Json.hasKey (k : String) : Json → Bool
  | .obj fields => fields.any (fun f => f.1 == k)
  | _ => false

/-- `json.dump` of the `Dict[str, int]` pid-tracking map. -/
def jsonOfPids (pids : List (String × Nat)) : Json :=
  Json.obj (pids.map fun p => (p.1, Json.num p.2))

/-- How a file write reaches the disk: written in place
(`open(path, "w")` + `json.dump`, as `_write_pids` does) or written to
`path + ".tmp"` and renamed over the target (as `write_json` does). -/
inductive PWrite where
  | direct
  | viaTemp
deriving DecidableEq, Repr

/-- Side effects the process supervisor performs, in order. -/
inductive SOp where
  | spawn (cmdList : List String)
  | writePidsFile (mode : PWrite) (contents : Json)
  | sigterm (pid : Nat)
  | sigkill (pid : Nat)

/-- What `subprocess.Popen` followed by the 1-second grace period and
`poll()` observed. -/
inductive SpawnOutcome where
  | fileNotFound
  | exited (code : Int)
  | running (pid : Nat)
deriving DecidableEq, Repr

/-- Python `dict.get` on an association list with unique keys (first match). -/
def alookup {α : Type} (k : String) : List (String × α) → Option α
  | [] => none
  | p :: rest => if p.1 == k then some p.2 else alookup k rest

/-- Python `d[k] = v`: replace in place, or append a fresh key at the end. -/
def aupdate {α : Type} (k : String) (v : α) : List (String × α) → List (String × α)
  | [] => [(k, v)]
  | p :: rest => if p.1 == k then (k, v) :: rest else p :: aupdate k v rest

/-- Python `del d[k]` (a dict holds each key at most once). -/
def aremove {α : Type} (k : String) : List (String × α) → List (String × α)
  | [] => []
  | p :: rest => if p.1 == k then aremove k rest else p :: aremove k rest

/-- The observable environment of one supervisor call. -/
structure World where
  /-- `find_servers_yaml()` + `read_yaml_servers`: `none` when no
  `servers.yaml` exists anywhere. -/
  servers : Option (List (String × ServerConfig))
  /-- Contents of `server-pids.json` (a JSON object name → pid). -/
  pids : List (String × Nat)
  /-- `_is_pid_running` before any signal is sent. -/
  alive : Nat → Bool
  /-- `_is_pid_running` re-checked two seconds after SIGTERM. -/
  aliveAfterTerm : Nat → Bool
  /-- Outcome of spawning the configured command. -/
  spawnOutcome : SpawnOutcome
  /-- Whether `os.kill` raises (modelled at the first signal). -/
  killRaises : Bool
  /-- The text of the exception when it does. -/
  killErr : String

/-- Result, new pid-tracking contents and side-effect trace of one
supervisor operation. -/
structure SupervisorOut where
  result : MResult
  pids : List (String × Nat)
  trace : List SOp

/-- `_write_pids`: a plain `open(_PID_FILE, "w")` + `json.dump` — an
in-place write of the serialized map. -/
def writePidsOp (pids : List (String × Nat)) : SOp :=
  SOp.writePidsFile PWrite.direct (jsonOfPids pids)

/-- The spawn half of `start_server`, after the already-running check. -/
def startSpawn (w : World) (name : String) (config : ServerConfig) : SupervisorOut :=
  let cmdList := config.command :: config.args
  match w.spawnOutcome with
  | .fileNotFound =>
    ⟨{ success := false, message := ("Command '") ++ config.command ++ ("' not found") },
     w.pids, [SOp.spawn cmdList]⟩
  | .exited code =>
    ⟨{ success := false
       message := ("Server '") ++ name ++ ("' exited immediately (code ") ++
         toString code ++ (")") },
     w.pids, [SOp.spawn cmdList]⟩
  | .running pid =>
    let pids1 := aupdate name pid w.pids
    ⟨{ success := true
       message := ("Started '") ++ name ++ ("' (PID ") ++ toString pid ++ (")") },
     pids1, [SOp.spawn cmdList, writePidsOp pids1]⟩

/-- `mcp_server_manager.start_server`. -/
def startServer (w : World) (name : String) : SupervisorOut :=
  match w.servers with
  | none => ⟨{ success := false, message := ("servers.yaml not found") }, w.pids, []⟩
  | some servers =>
    match alookup name servers with
    | none =>
      ⟨{ success := false
         message := ("Server '") ++ name ++ ("' not found in servers.yaml") }, w.pids, []⟩
    | some config =>
      if config.command == "" then
        if config.url != "" then
          ⟨{ success := true
             message := ("Server '") ++ name ++ ("' is URL-based (") ++ config.url ++
               (") - no process to start") }, w.pids, []⟩
        else
          ⟨{ success := false
             message := ("Server '") ++ name ++ ("' has no command configured") },
           w.pids, []⟩
      else
        match alookup name w.pids with
        | some existingPid =>
          -- `if existing_pid and _is_pid_running(existing_pid)`: a zero pid
          -- is falsy in Python and skips the idempotence branch.
          if existingPid != 0 && w.alive existingPid then
            ⟨{ success := true
               message := ("Server '") ++ name ++ ("' already running (PID ") ++
                 toString existingPid ++ (")") }, w.pids, []⟩
          else startSpawn w name config
        | none => startSpawn w name config

/-- The "never started by this system" message of `stop_server`. -/
def noPidMsg (name : String) : String :=
  ("No PID tracked for '") ++ name ++
    ("' - server may not have been started by super-manager")

/-- `mcp_server_manager.stop_server` (POSIX branch: SIGTERM, a 2-second
grace, then SIGKILL while still alive; `del` + `_write_pids` afterwards). -/
def stopServer (w : World) (name : String) : SupervisorOut :=
  match alookup name w.pids with
  | none => ⟨{ success := false, message := noPidMsg name }, w.pids, []⟩
  | some pid =>
    if pid == 0 then
      -- Python `if not pid`: a zero pid is treated as untracked.
      ⟨{ success := false, message := noPidMsg name }, w.pids, []⟩
    else if !w.alive pid then
      let pids1 := aremove name w.pids
      ⟨{ success := true
         message := ("Server '") ++ name ++ ("' (PID ") ++ toString pid ++
           (") was already stopped") }, pids1, [writePidsOp pids1]⟩
    else if w.killRaises then
      ⟨{ success := false
         message := ("Failed to stop '") ++ name ++ ("': ") ++ w.killErr }, w.pids, []⟩
    else
      let sigs := if w.aliveAfterTerm pid then [SOp.sigterm pid, SOp.sigkill pid]
        else [SOp.sigterm pid]
      let pids1 := aremove name w.pids
      ⟨{ success := true
         message := ("Stopped '") ++ name ++ ("' (PID ") ++ toString pid ++ (")") },
       pids1, sigs ++ [writePidsOp pids1]⟩

/-! ### Discovery, `commands/discover.py` -/

/-- What `_scan_settings_hooks` keeps per hook name. -/
structure SetHookInfo where
  event : String
  matcher : String
  command : String
  async : Bool
deriving DecidableEq, Repr

/-- `discover._scan_settings_hooks`: flatten the hooks section into a dict
keyed by derived name; entries whose derivation fails or yields an empty
name are skipped (`if not name: continue`), later entries overwrite. -/
def scanSettingsHooks (hs : HooksSection) : List (String × SetHookInfo) :=
  hs.foldl (fun acc eg =>
    eg.2.foldl (fun acc g =>
      g.hooks.foldl (fun acc h =>
        match discoverExtractHookName h.command with
        | none => acc
        | some name =>
          if name == "" then acc
          else aupdate name { event := eg.1, matcher := g.matcher
                              command := h.command, async := h.async } acc)
        acc) acc) []

/-- Insertion into a `<`-sorted list of strings. -/
def insertSorted (x : String) : List String → List String
  | [] => [x]
  | y :: ys => if x < y then x :: y :: ys else y :: insertSorted x ys

/-- Python `sorted` on a list of distinct strings. -/
def sortStrings (l : List String) : List String := l.foldr insertSorted []

/-- Statuses discovery assigns (hooks never produce `new`; only skills do). -/
inductive DStatus where
  | managed
  | registered
  | orphaned
  | new
deriving DecidableEq, Repr

/-- One row of `discover.discover_hooks`. For non-`managed` rows the source
dict omits the matcher/command/async keys and the registration call site
reads them back with `.get` defaults `"*"` / `""` / `False`; the model
stores those defaults directly. -/
structure DHook where
  name : String
  status : DStatus
  event : String
  matcher : String
  command : String
  async : Bool
  onDisk : Bool
  inSettings : Bool
  inRegistry : Bool
deriving DecidableEq, Repr

/-- The event `discover_hooks` reports for a registry-only hook: the last
registry entry with the name wins (`_read_hook_registry` builds a dict). -/
def regHookEvent (name : String) (reg : List RegHook) : String :=
  match (reg.filter (fun h => h.name == name)).getLast? with
  | some h => h.event
  | none => ("")

/-- The keys of `discover._read_hook_registry`'s dict: nonempty registry
names, first occurrence kept. -/
def hookRegKeys (reg : List RegHook) : List String :=
  ((reg.map RegHook.name).filter (fun n => n != "")).dedup

/-- The `sorted(all_names)` union of `discover.discover_hooks`. -/
def allHookNames (diskNames : List String) (settings : List (String × SetHookInfo))
    (reg : List RegHook) : List String :=
  sortStrings (diskNames ++ settings.map (fun p => p.1) ++ hookRegKeys reg).dedup

/-- One row of `discover.discover_hooks` for a given name. -/
def discoverHookRow (diskNames : List String) (settings : List (String × SetHookInfo))
    (reg : List RegHook) (name : String) : DHook :=
  let onDisk := diskNames.contains name
  let inRegistry := (hookRegKeys reg).contains name
  match alookup name settings with
  | some info =>
    if inRegistry && !onDisk then
      { name := name, status := .orphaned, event := info.event, matcher := ("*")
        command := "", async := false, onDisk := false, inSettings := true
        inRegistry := true }
    else
      { name := name, status := .managed, event := info.event, matcher := info.matcher
        command := info.command, async := info.async, onDisk := onDisk
        inSettings := true, inRegistry := inRegistry }
  | none =>
    let event := if inRegistry then regHookEvent name reg else ("")
    if inRegistry && !onDisk then
      { name := name, status := .orphaned, event := event, matcher := ("*")
        command := "", async := false, onDisk := false, inSettings := false
        inRegistry := true }
    else
      { name := name, status := .registered, event := event, matcher := ("*")
        command := "", async := false, onDisk := onDisk, inSettings := false
        inRegistry := inRegistry }

/-- `discover.discover_hooks`: one row per name in the sorted union of disk
scripts, settings hooks and (nonempty) registry names. -/
def discoverHooks (diskNames : List String) (settings : List (String × SetHookInfo))
    (reg : List RegHook) : List DHook :=
  (allHookNames diskNames settings reg).map (discoverHookRow diskNames settings reg)

/-- `discover.register_hook`: append to the raw registry list unless some
entry already carries the name; `managed=False` for fresh registrations. -/
def registerHook (name event command matcher : String) (isAsync : Bool)
    (reg : List RegHook) : Bool × List RegHook :=
  if reg.any (fun h => h.name == name) then (false, reg)
  else (true, reg ++ [{ name := name, event := event, matcher := matcher
                        async := isAsync, managed := false, description := ""
                        command := command }])

/-- `discover._sync_hook_managed_flags`. -/
def syncHookManagedFlags (settings : List (String × SetHookInfo))
    (reg : List RegHook) : List RegHook :=
  reg.map fun h => { h with managed := (alookup h.name settings).isSome }

/-- The per-row registration step of `discover.run` for hooks. -/
def hookRegStep (d : DHook) (acc : Nat × List RegHook) : Nat × List RegHook :=
  match d.status with
  | .managed =>
    if !d.inRegistry then
      let r := registerHook d.name d.event d.command d.matcher d.async acc.2
      (acc.1 + (if r.1 then 1 else 0), r.2)
    else acc
  | .registered =>
    if !d.inRegistry then
      let r := registerHook d.name d.event d.command d.matcher false acc.2
      (acc.1 + (if r.1 then 1 else 0), r.2)
    else acc
  | _ => acc

/-- The hooks half of `discover.run` in auto-register mode: classify, then
register every row missing from the registry, then re-synchronize `managed`
flags. Returns the number of newly registered hooks and the new registry. -/
def runHooksPass (diskNames : List String) (settings : List (String × SetHookInfo))
    (reg : List RegHook) : Nat × List RegHook :=
  let ds := discoverHooks diskNames settings reg
  let out := ds.foldl (fun acc d => hookRegStep d acc) (0, reg)
  (out.1, syncHookManagedFlags settings out.2)

/-- One row of `discover.discover_skills`. -/
structure DSkill where
  id : String
  status : DStatus
  onDisk : Bool
  inRegistry : Bool
  enabled : Bool
  skillPath : String
deriving DecidableEq, Repr

/-- The keys of `discover._read_skill_registry`'s dict: nonempty ids, first
occurrence kept. -/
def skillRegKeys (reg : List SkillEntry) : List String :=
  ((reg.map SkillEntry.id).filter (fun n => n != "")).dedup

/-- The `sorted(all_ids)` union of `discover.discover_skills`. -/
def allSkillIds (diskSkills : List (String × String)) (reg : List SkillEntry) :
    List String :=
  sortStrings (diskSkills.map (fun p => p.1) ++ skillRegKeys reg).dedup

/-- One row of `discover.discover_skills` for a given id. -/
def discoverSkillRow (isfile : String → Bool) (diskSkills : List (String × String))
    (reg : List SkillEntry) (id : String) : DSkill :=
  let onDisk := (alookup id diskSkills).isSome
  let newRow : DSkill :=
    { id := id, status := .new, onDisk := true, inRegistry := false
      enabled := false, skillPath := (alookup id diskSkills).getD ("") }
  match (reg.filter (fun s => s.id == id)).getLast? with
  | some entry =>
    if id == "" then newRow  -- `_read_skill_registry` skips empty ids
    else
      let pathExists := entry.skillPath != "" && isfile entry.skillPath
      let actuallyOnDisk := onDisk || pathExists
      if !actuallyOnDisk then
        { id := id, status := .orphaned, onDisk := false, inRegistry := true
          enabled := entry.enabled, skillPath := ("") }
      else if entry.enabled then
        { id := id, status := .managed, onDisk := true, inRegistry := true
          enabled := true, skillPath := ("") }
      else
        { id := id, status := .registered, onDisk := true, inRegistry := true
          enabled := false, skillPath := ("") }
  | none => newRow

/-- `discover.discover_skills`: one row per id in the sorted union of the
skill directories on disk and the (nonempty) registry ids. -/
def discoverSkills (isfile : String → Bool) (diskSkills : List (String × String))
    (reg : List SkillEntry) : List DSkill :=
  (allSkillIds diskSkills reg).map (discoverSkillRow isfile diskSkills reg)

/-- `discover.register_skill`. -/
def registerSkill (id path : String) (reg : List SkillEntry) : Bool × List SkillEntry :=
  if reg.any (fun s => s.id == id) then (false, reg)
  else
    (true, reg ++ [{ id := id, name := id
                     keywords := [id.replace ("-") (" "), id]
                     skillPath := path.replace ("\\") ("/")
                     enabled := false }])

/-- The per-row registration step of `discover.run` for skills (only `new`
rows are registered). -/
def skillRegStep (d : DSkill) (acc : Nat × List SkillEntry) : Nat × List SkillEntry :=
  match d.status with
  | .new =>
    let r := registerSkill d.id d.skillPath acc.2
    (acc.1 + (if r.1 then 1 else 0), r.2)
  | _ => acc

/-- The skills half of `discover.run` in auto-register mode. -/
def runSkillsPass (isfile : String → Bool) (diskSkills : List (String × String))
    (reg : List SkillEntry) : Nat × List SkillEntry :=
  let ds := discoverSkills isfile diskSkills reg
  ds.foldl (fun acc d => skillRegStep d acc) (0, reg)

/-- The two registries discovery mutates (MCP servers and instructions are
reported but never registered by `discover.run`, so they carry no state
here). -/
structure DiscoveryState where
  hookReg : List RegHook
  skillReg : List SkillEntry
deriving DecidableEq, Repr

/-- `discover.run(report_only=False)`: the auto-registration effect and the
`newly_registered` counter. The disk scans and the settings read are fixed
inputs — discovery never writes to them. -/
def runDiscovery (diskHookNames : List String) (settings : List (String × SetHookInfo))
    (isfile : String → Bool) (diskSkills : List (String × String))
    (st : DiscoveryState) : Nat × DiscoveryState :=
  let h := runHooksPass diskHookNames settings st.hookReg
  let s := runSkillsPass isfile diskSkills st.skillReg
  (h.1 + s.1, { hookReg := h.2, skillReg := s.2 })

/-! ### JSON store reads, `shared/config_file_handler.py` -/

/-- The content of a JSON file as the reader sees it: `none` when the file
is missing (`FileNotFoundError`), `some (.error ())` when present but not
valid JSON (`json.JSONDecodeError`), `some (.ok v)` when it parses to `v`. -/
abbrev JsonFile (α : Type) := Option (Except Unit α)

/-- `config_file_handler.read_json` (every manager call site passes an
explicit default, so the `None → {}` defaulting never fires). -/
def readJson {α : Type} (file : JsonFile α) (dflt : α) : α :=
  match file with
  | none => dflt
  | some (.error _) => dflt
  | some (.ok v) => v

/-- The parsed shape of `hook-registry.json` (`version` is a constant the
reader ignores). -/
structure HookRegistryDoc where
  hooks : List RegHook
deriving DecidableEq, Repr

/-- `hook_manager._read_registry` composed with the file read: a missing or
corrupted registry file reads as the default document with no hooks. -/
def readHookRegistry (file : JsonFile HookRegistryDoc) : List RegHook :=
  (readJson file { hooks := [] }).hooks

/-! ### Concrete instances used by witnesses and counterexamples -/

/-- A concrete environment: no file exists, path resolution is the
identity, the hash oracle is constant. -/
def envW : Env :=
  { hashFn := fun _ => 0, isfile := fun _ => false, resolvePath := id
    normPath := id, archiveDir := ("ARCH"), timestamp := ("20260101_000000") }

/-- `envW` with exactly one existing file, `P`. -/
def envP : Env := { envW with isfile := fun p => p == ("P") }

/-- A world with one configured server, an empty tracking file, and a spawn
that stays alive as pid 42. -/
def w7 : World :=
  { servers := some [(("srv"), { command := ("cmd") : ServerConfig })]
    pids := [], alive := fun _ => false, aliveAfterTerm := fun _ => false
    spawnOutcome := .running 42, killRaises := false, killErr := ("") }

/-- One registered skill whose descriptor file `P` exists under `envP`. -/
def skillReg0 : List SkillEntry :=
  [{ id := ("s"), name := ("s"), keywords := [], skillPath := ("P"), enabled := true }]

/-- A hook command whose derived name is `h`. -/
def cmd4 : String := ("node \x22h.js\x22")

/-- A hook state in which hook `h` is registered and already active in the
settings hooks section. -/
def st4 : HookState :=
  { settings := [(("SessionStart"), [⟨("*"), [⟨cmd4, false⟩]⟩])]
    registry := [{ name := ("h"), event := ("SessionStart"), matcher := ("*")
                   async := false, managed := true, description := "", command := cmd4 }] }

/-- An object field read on the minimal JSON model. -/
def Json.lookup (k : String) : Json → Option Json
  | .obj fields => alookup k fields
  | _ => none

/-- A world with one configured server whose tracked pid 5 is alive. -/
def wA : World :=
  { servers := some [(("srv"), { command := ("c") : ServerConfig })]
    pids := [(("srv"), 5)], alive := fun p => p == 5
    aliveAfterTerm := fun _ => false, spawnOutcome := .exited 1
    killRaises := false, killErr := ("") }

/-- `wA` with an empty tracking file. -/
def wB : World := { wA with pids := [] }

/-- `wA` with its tracked pid dead. -/
def wStale : World := { wA with alive := fun _ => false }

/-- A hook state whose registry already holds hook `h`. -/
def stDup : HookState :=
  { settings := []
    registry := [{ name := ("h"), event := ("SessionStart"), matcher := ("*")
                   async := false, managed := true, description := ""
                   command := ("node x.js") }] }

/-- The empty hook state. -/
def stEmpty : HookState := { settings := [], registry := [] }

/-- A settings section with one hook whose derived name is `o`. -/
def settings1 : HooksSection :=
  [(("SessionStart"), [⟨("*"), [⟨("node \x22o.js\x22"), false⟩]⟩])]

/-- A registry with one hook `h` that is absent from `settings1`. -/
def registry1 : List RegHook :=
  [{ name := ("h"), event := ("SessionStart"), matcher := ("*"), async := false
     managed := true, description := "", command := ("node x.js") }]

/-- A hook state with hook `h` active whose command references the file `P`
(which exists under `envP`). -/
def stP : HookState :=
  { settings := [(("SessionStart"), [⟨("*"), [⟨("node \x22P\x22"), false⟩]⟩])]
    registry := [{ name := ("h"), event := ("SessionStart"), matcher := ("*")
                   async := false, managed := true, description := ""
                   command := ("node \x22P\x22") }] }

/-- A hook state in which hook `h` is registered but not active; the live
store holds one unrelated hook `z`. -/
def st5 : HookState :=
  { settings := [(("PreToolUse"), [⟨("*"), [⟨("node \x22z.js\x22"), false⟩]⟩])]
    registry := [{ name := ("h"), event := ("SessionStart"), matcher := ("*")
                   async := false, managed := false, description := ""
                   command := cmd4 }] }

/-! ### Association-list and JSON lemmas -/

theorem alookup_aremove_self {α : Type} (k : String) (l : List (String × α)) :
    alookup k (aremove k l) = none := by
  induction l with
  | nil => rfl
  | cons p rest ih =>
    cases hb : (p.1 == k) with
    | true => simpa [aremove, hb] using ih
    | false => simpa [aremove, alookup, hb] using ih

theorem alookup_aupdate_self {α : Type} (k : String) (v : α) (l : List (String × α)) :
    alookup k (aupdate k v l) = some v := by
  induction l with
  | nil => simp [alookup, aupdate]
  | cons p rest ih =>
    cases hb : (p.1 == k) with
    | true => simp [aupdate, hb, alookup]
    | false => simpa [aupdate, alookup, hb] using ih

theorem json_lookup_jsonOfPids (k : String) (l : List (String × Nat)) :
    Json.lookup k (jsonOfPids l) = (alookup k l).map Json.num := by
  induction l with
  | nil => rfl
  | cons p rest ih =>
    cases hb : (p.1 == k) with
    | true => simp [jsonOfPids, Json.lookup, alookup, hb]
    | false => simpa [jsonOfPids, Json.lookup, alookup, hb] using ih

/-! ### C10 -/

/-- C10: `read_json` returns the parsed content when the file exists and
parses as JSON, and the supplied default both when the file is missing and
when its contents are not valid JSON; consequently
`hook_manager._read_registry` treats a corrupted registry file as an empty
registry, and the next registry write (here through `add_item`) replaces
the corrupted content with exactly the new entry. -/
theorem C10_read_json (env : Env) (settings : HooksSection)
    (name event command description matcher : String) (isAsync : Bool) :
    (∀ (α : Type) (d : α), readJson (α := α) none d = d) ∧
    (∀ (α : Type) (d : α), readJson (α := α) (some (Except.error ())) d = d) ∧
    (∀ (α : Type) (d v : α), readJson (α := α) (some (Except.ok v)) d = v) ∧
    readHookRegistry none = [] ∧
    readHookRegistry (some (Except.error ())) = [] ∧
    (VALID_HOOK_EVENTS.contains event = true →
     (command == "" || pyStrip command == "") = false →
     (name == "") = false →
     (hookAddItem env name event command description matcher isAsync
        { settings := settings
          registry := readHookRegistry (some (Except.error ())) }).2.registry =
       [{ name := name, event := event, matcher := matcher, async := isAsync
          managed := true, description := description, command := command }]) := by
  refine ⟨fun α d => rfl, fun α d => rfl, fun α d v => rfl, rfl, rfl, ?_⟩
  intro hv hc hn
  have hv2 : event ∈ VALID_HOOK_EVENTS := by simpa using hv
  simp [hookAddItem, readHookRegistry, readJson, hv, hv2, hc, hn, findRegistryEntry]

/-- Witness for C10 at a concrete corrupted-registry state. -/
theorem C10_witness :
    VALID_HOOK_EVENTS.contains ("SessionStart") = true ∧
    ((("node x.js") == "" || pyStrip ("node x.js") == "")) = false ∧
    ((("h") == "")) = false ∧
    (hookAddItem envW ("h") ("SessionStart") ("node x.js") ("") ("*") false
      { settings := [], registry := readHookRegistry (some (Except.error ())) }).2.registry =
      [{ name := ("h"), event := ("SessionStart"), matcher := ("*"), async := false
         managed := true, description := "", command := ("node x.js") }] :=
  ⟨by decide, by decide, by decide,
   (C10_read_json envW [] ("h") ("SessionStart") ("node x.js") ("") ("*")
       false).2.2.2.2.2 (by decide) (by decide) (by decide)⟩

/-! ### C9 -/

/-- C9 as stated is false: with no quoted segment the code derives the name
from the token after the first `node`/`bash`, not from the final
whitespace-delimited token. On `node a.js b.txt` both adapter copies derive
`a`, while the claimed rule yields `b`. -/
theorem C9_counterexample :
    discoverExtractHookName ("node a.js b.txt") = some ("a") ∧
    managerExtractHookName envW ("node a.js b.txt") = ("a") ∧
    specDerivedName ("node a.js b.txt") = some ("b") ∧
    discoverExtractHookName ("node a.js b.txt") ≠ specDerivedName ("node a.js b.txt") :=
  ⟨by decide, by decide, by decide, by decide⟩

/-- C9 amended: the derived identifier is the basename-without-extension of
the double-quoted segment when the command has one; otherwise of the
(quote-stripped) token following the first `node`/`bash` occurrence when
that exists; otherwise the discovery variant derives nothing while the
manager variant falls back to `hook-<abs(hash) % 100000>` — and the two
adapter copies agree whenever the discovery one derives a name. -/
theorem C9_amended (env : Env) (command : String) :
    (∀ n, discoverExtractHookName command = some n →
      managerExtractHookName env command = n) ∧
    (discoverExtractHookName command = none →
      managerExtractHookName env command =
        ("hook-") ++ toString (env.hashFn command % 100000)) ∧
    (∀ p, firstQuoted command.data = some p →
      discoverExtractHookName command = some ⟨splitextRoot (basenameChars p)⟩) ∧
    (∀ t, firstQuoted command.data = none → nodeBashToken command.data = some t →
      discoverExtractHookName command =
        some ⟨splitextRoot (basenameChars (stripQuotes t))⟩) := by
  cases hq : firstQuoted command.data with
  | some p =>
    refine ⟨?_, ?_, ?_, ?_⟩ <;>
      simp [discoverExtractHookName, managerExtractHookName, hq]
  | none =>
    cases hnb : nodeBashToken command.data with
    | some t =>
      refine ⟨?_, ?_, ?_, ?_⟩ <;>
        simp [discoverExtractHookName, managerExtractHookName, hq, hnb]
    | none =>
      refine ⟨?_, ?_, ?_, ?_⟩ <;>
        simp [discoverExtractHookName, managerExtractHookName, hq, hnb]

/-- Witness for C9's amended statement at a concrete command. -/
theorem C9_amended_witness :
    discoverExtractHookName ("node a.js b.txt") = some ("a") ∧
    managerExtractHookName envW ("node a.js b.txt") = ("a") :=
  ⟨by decide, (C9_amended envW ("node a.js b.txt")).1 ("a") (by decide)⟩

/-! ### C5 -/

/-- C5: with the server present in `servers.yaml` with a nonempty command,
`start` on a tracked live pid returns success without spawning (empty
side-effect trace, tracking file untouched); and when the spawned process
has already exited within the grace period, `start` fails with a message
carrying the exit code and records no pid. -/
theorem C5_start (w : World) (name : String) (servers : List (String × ServerConfig))
    (config : ServerConfig)
    (hs : w.servers = some servers)
    (hc : alookup name servers = some config)
    (hcmd : (config.command == "") = false) :
    (∀ pid, alookup name w.pids = some pid → (pid != 0 && w.alive pid) = true →
      (startServer w name).result.success = true ∧
      (startServer w name).pids = w.pids ∧
      (startServer w name).trace = []) ∧
    (∀ code, (∀ pid, alookup name w.pids = some pid → (pid != 0 && w.alive pid) = false) →
      w.spawnOutcome = SpawnOutcome.exited code →
      (startServer w name).result.success = false ∧
      (startServer w name).result.message =
        ("Server '") ++ name ++ ("' exited immediately (code ") ++ toString code ++ (")") ∧
      (startServer w name).pids = w.pids) := by
  constructor
  · intro pid hpid halive
    simp [startServer, hs, hc, hcmd, hpid, halive]
  · intro code hnot hspawn
    cases hpid : alookup name w.pids with
    | none => simp [startServer, hs, hc, hcmd, hpid, startSpawn, hspawn]
    | some p =>
      have hflag := hnot p hpid
      simp [startServer, hs, hc, hcmd, hpid, hflag, startSpawn, hspawn]

/-- Witness for C5 at two concrete worlds: a tracked-alive one and an
immediately-exiting spawn. -/
theorem C5_witness :
    (startServer wA ("srv")).result.success = true ∧
    (startServer wA ("srv")).trace = [] ∧
    (startServer wB ("srv")).result.success = false ∧
    (startServer wB ("srv")).pids = [] := by
  have h1 := (C5_start wA ("srv") [(("srv"), { command := ("c") : ServerConfig })]
    { command := ("c") } rfl (by decide) (by decide)).1 5 (by decide) (by decide)
  have h2 := (C5_start wB ("srv") [(("srv"), { command := ("c") : ServerConfig })]
    { command := ("c") } rfl (by decide) (by decide)).2 1
    (fun pid h => by simp [wB, wA, alookup] at h) rfl
  exact ⟨h1.1, h1.2.2, h2.1, h2.2.2⟩

/-! ### C6 -/

/-- C6: `stop` with no tracked pid fails with the "never started by this
system" message and changes nothing; with a tracked dead pid it deletes the
stale entry and reports success; with a live pid it sends SIGTERM,
escalates to SIGKILL exactly when the process is still alive after the
grace period, and removes the entry on termination; consequently a
successful (or idempotent) `start` followed by `stop` leaves no tracking
entry for the name. -/
theorem C6_stop (w : World) (name : String) :
    (alookup name w.pids = none →
      (stopServer w name).result.success = false ∧
      (stopServer w name).result.message = noPidMsg name ∧
      (stopServer w name).pids = w.pids) ∧
    (∀ pid, alookup name w.pids = some pid → (pid == 0) = false →
      w.alive pid = false →
      (stopServer w name).result.success = true ∧
      (stopServer w name).pids = aremove name w.pids ∧
      alookup name (stopServer w name).pids = none) ∧
    (∀ pid, alookup name w.pids = some pid → (pid == 0) = false →
      w.alive pid = true → w.killRaises = false →
      (stopServer w name).result.success = true ∧
      (stopServer w name).pids = aremove name w.pids ∧
      alookup name (stopServer w name).pids = none ∧
      (stopServer w name).trace =
        (if w.aliveAfterTerm pid then [SOp.sigterm pid, SOp.sigkill pid]
         else [SOp.sigterm pid]) ++ [writePidsOp (aremove name w.pids)]) ∧
    (∀ servers config pid,
      w.servers = some servers → alookup name servers = some config →
      (config.command == "") = false → w.spawnOutcome = SpawnOutcome.running pid →
      (pid == 0) = false → w.killRaises = false →
      alookup name (stopServer { w with pids := (startServer w name).pids } name).pids =
        none) := by
  have stopRemoves : ∀ P : List (String × Nat), w.killRaises = false →
      (∀ q, alookup name P = some q → (q == 0) = false) →
      alookup name (stopServer { w with pids := P } name).pids = none := by
    intro P hk hq
    cases hP : alookup name P with
    | none => simpa [stopServer, hP] using hP
    | some q =>
      have hz := hq q hP
      cases ha : w.alive q with
      | true => simp [stopServer, hP, hz, ha, hk, alookup_aremove_self]
      | false => simp [stopServer, hP, hz, ha, alookup_aremove_self]
  refine ⟨?_, ?_, ?_, ?_⟩
  · intro hnone
    simp [stopServer, hnone]
  · intro pid hpid hz hdead
    simp [stopServer, hpid, hz, hdead, alookup_aremove_self]
  · intro pid hpid hz halive hk
    simp [stopServer, hpid, hz, halive, hk, alookup_aremove_self]
  · intro servers config pid hs hc hcmd hspawn hpz hk
    cases hpid : alookup name w.pids with
    | none =>
      have hP : (startServer w name).pids = aupdate name pid w.pids := by
        simp [startServer, hs, hc, hcmd, hpid, startSpawn, hspawn]
      rw [hP]
      refine stopRemoves _ hk ?_
      intro q hq
      rw [alookup_aupdate_self] at hq
      cases hq
      exact hpz
    | some p =>
      cases hflag : (p != 0 && w.alive p) with
      | true =>
        have hP : (startServer w name).pids = w.pids := by
          simp [startServer, hs, hc, hcmd, hpid, hflag]
        rw [hP]
        refine stopRemoves _ hk ?_
        intro q hq
        rw [hpid] at hq
        cases hq
        have := (Bool.and_eq_true _ _).mp hflag
        simpa [bne] using this.1
      | false =>
        have hP : (startServer w name).pids = aupdate name pid w.pids := by
          simp [startServer, hs, hc, hcmd, hpid, hflag, startSpawn, hspawn]
        rw [hP]
        refine stopRemoves _ hk ?_
        intro q hq
        rw [alookup_aupdate_self] at hq
        cases hq
        exact hpz

/-- Witness for C6 at concrete worlds: no tracked pid, a stale pid, a live
pid, and the start-then-stop round trip. -/
theorem C6_witness :
    (stopServer wB ("srv")).result.success = false ∧
    (stopServer wStale ("srv")).result.success = true ∧
    alookup ("srv") (stopServer wStale ("srv")).pids = none ∧
    (stopServer wA ("srv")).result.success = true ∧
    alookup ("srv") (stopServer wA ("srv")).pids = none ∧
    alookup ("srv")
      (stopServer { w7 with pids := (startServer w7 ("srv")).pids } ("srv")).pids =
      none := by
  refine ⟨((C6_stop wB ("srv")).1 (by decide)).1, ?_, ?_, ?_, ?_, ?_⟩
  · exact ((C6_stop wStale ("srv")).2.1 5 (by decide) (by decide) (by decide)).1
  · exact ((C6_stop wStale ("srv")).2.1 5 (by decide) (by decide) (by decide)).2.2
  · exact ((C6_stop wA ("srv")).2.2.1 5 (by decide) (by decide) (by decide) (by decide)).1
  · exact ((C6_stop wA ("srv")).2.2.1 5 (by decide) (by decide) (by decide) (by decide)).2.2.1
  · exact (C6_stop w7 ("srv")).2.2.2 [(("srv"), { command := ("cmd") : ServerConfig })]
      { command := ("cmd") } 42 rfl (by decide) (by decide) rfl (by decide) rfl

/-! ### C7 -/

/-- C7 as stated is false: a successful `start` writes the tracking file in
place (plain `open` + `json.dump`, not a temp-file-then-rename), and the
recorded entry is the bare pid with no `startedAt` field. -/
theorem C7_counterexample :
    (startServer w7 ("srv")).result.success = true ∧
    (startServer w7 ("srv")).trace =
      [SOp.spawn [("cmd")],
       SOp.writePidsFile PWrite.direct (Json.obj [(("srv"), Json.num 42)])] ∧
    (∀ mode contents, SOp.writePidsFile mode contents ∈ (startServer w7 ("srv")).trace →
      mode = PWrite.direct ∧ Json.hasKey ("startedAt") contents = false) := by
  refine ⟨rfl, rfl, ?_⟩
  intro mode contents hmem
  have ht : (startServer w7 ("srv")).trace =
      [SOp.spawn [("cmd")],
       SOp.writePidsFile PWrite.direct (Json.obj [(("srv"), Json.num 42)])] := rfl
  rw [ht] at hmem
  rcases List.mem_cons.mp hmem with h | hmem2
  · exact SOp.noConfusion h
  · rcases List.mem_cons.mp hmem2 with h | h
    · injection h with h1 h2
      subst h1; subst h2
      exact ⟨rfl, by decide⟩
    · simp at h

/-- C7 amended: on every successful spawn-`start`, the supervisor records
the entry name ↦ pid (a bare integer, with no `startedAt` timestamp) in the
tracking file, and that write goes to the target path in place — not via a
temporary file and rename. -/
theorem C7_amended (w : World) (name : String) (servers : List (String × ServerConfig))
    (config : ServerConfig) (pid : Nat)
    (hs : w.servers = some servers) (hc : alookup name servers = some config)
    (hcmd : (config.command == "") = false)
    (hsp : w.spawnOutcome = SpawnOutcome.running pid)
    (hnt : ∀ p, alookup name w.pids = some p → (p != 0 && w.alive p) = false) :
    (startServer w name).result.success = true ∧
    (startServer w name).pids = aupdate name pid w.pids ∧
    alookup name (startServer w name).pids = some pid ∧
    (startServer w name).trace =
      [SOp.spawn (config.command :: config.args),
       SOp.writePidsFile PWrite.direct (jsonOfPids (aupdate name pid w.pids))] ∧
    Json.lookup name (jsonOfPids (aupdate name pid w.pids)) = some (Json.num pid) := by
  have hjson : Json.lookup name (jsonOfPids (aupdate name pid w.pids)) =
      some (Json.num pid) := by
    rw [json_lookup_jsonOfPids, alookup_aupdate_self]
    rfl
  cases hpid : alookup name w.pids with
  | none =>
    refine ⟨?_, ?_, ?_, ?_, hjson⟩ <;>
      simp [startServer, hs, hc, hcmd, hpid, startSpawn, hsp, writePidsOp,
        alookup_aupdate_self]
  | some p =>
    have hflag := hnt p hpid
    refine ⟨?_, ?_, ?_, ?_, hjson⟩ <;>
      simp [startServer, hs, hc, hcmd, hpid, hflag, startSpawn, hsp, writePidsOp,
        alookup_aupdate_self]

/-- Witness for C7's amended statement at the concrete world `w7`. -/
theorem C7_amended_witness :
    (startServer w7 ("srv")).result.success = true ∧
    alookup ("srv") (startServer w7 ("srv")).pids = some 42 ∧
    Json.lookup ("srv") (jsonOfPids (aupdate ("srv") 42 w7.pids)) =
      some (Json.num 42) := by
  have h := C7_amended w7 ("srv") [(("srv"), { command := ("cmd") : ServerConfig })]
    { command := ("cmd") } 42 rfl (by decide) (by decide) rfl
    (fun p hp => by simp [w7, alookup] at hp)
  exact ⟨h.1, h.2.2.1, h.2.2.2.2⟩

/-! ### C2 -/

/-- C2: for both cited kinds, `add` with an id already present in that
kind's registry fails and leaves the stores unchanged; `add` with a fresh
id whose referenced backing file does not exist still succeeds, with the
file-not-found warning embedded in the result message, and appends the
registry entry — and, for Hook, also writes the live-store entry. -/
theorem C2_add (env : Env) (st : HookState) (skillReg : List SkillEntry)
    (name event command description matcher sname spath : String)
    (isAsync : Bool) (kw : Option (List String)) :
    (VALID_HOOK_EVENTS.contains event = true →
     (command == "" || pyStrip command == "") = false →
     (name == "") = false →
     (∃ e, findRegistryEntry name st.registry = some e) →
     (hookAddItem env name event command description matcher isAsync st).1.success = false ∧
     (hookAddItem env name event command description matcher isAsync st).2 = st) ∧
    (VALID_HOOK_EVENTS.contains event = true →
     (command == "" || pyStrip command == "") = false →
     (name == "") = false →
     findRegistryEntry name st.registry = none →
     checkFileExists env command = false →
     (hookAddItem env name event command description matcher isAsync st).1.success = true ∧
     (hookAddItem env name event command description matcher isAsync st).1.message =
       ("Added hook '") ++ name ++ ("' (") ++ event ++ ("/") ++ matcher ++ (")") ++
         ((" [WARNING: script file not found: ") ++
           optPathStr (extractFilePath env command) ++ ("]")) ∧
     (hookAddItem env name event command description matcher isAsync st).2.registry =
       st.registry ++
         [{ name := name, event := event, matcher := matcher, async := isAsync
            managed := true, description := description, command := command }] ∧
     (hookAddItem env name event command description matcher isAsync st).2.settings =
       addHookToSettings event matcher command isAsync st.settings) ∧
    ((sname == "" || pyStrip sname == "") = false →
     (∃ e, findSkillEntry sname skillReg = some e) →
     (skillAddItem env sname spath kw skillReg).1.success = false ∧
     (skillAddItem env sname spath kw skillReg).2 = skillReg) ∧
    ((sname == "" || pyStrip sname == "") = false →
     findSkillEntry sname skillReg = none →
     (spath == "") = false →
     (env.normPath spath == "") = false →
     env.isfile (env.normPath spath) = false →
     (skillAddItem env sname spath kw skillReg).1.success = true ∧
     (skillAddItem env sname spath kw skillReg).1.message =
       ("Added skill ") ++ pyRepr sname ++
         ((" [WARNING: SKILL.md not found at ") ++ env.normPath spath ++ ("]")) ∧
     (skillAddItem env sname spath kw skillReg).2 =
       skillReg ++ [{ id := sname, name := sname, keywords := kw.getD [sname]
                      skillPath := env.normPath spath, enabled := true }]) := by
  refine ⟨?_, ?_, ?_, ?_⟩
  · intro hv hc hn ⟨e, he⟩
    have hv2 : event ∈ VALID_HOOK_EVENTS := by simpa using hv
    simp [hookAddItem, hv2, hc, hn, he]
  · intro hv hc hn he hfe
    have hv2 : event ∈ VALID_HOOK_EVENTS := by simpa using hv
    simp [hookAddItem, hv2, hc, hn, he, hfe]
  · intro hsn ⟨e, he⟩
    simp [skillAddItem, hsn, he]
  · intro hsn he hsp hnp hfile
    have hnp2 : ¬(env.normPath spath = "") := by simpa using hnp
    simp [skillAddItem, hsn, he, hsp, hnp, hnp2, hfile]

/-- Witness for C2: a duplicate hook add, a fresh hook add with a missing
script, a duplicate skill add, and a fresh skill add with a missing
descriptor, all at concrete states. -/
theorem C2_witness :
    (hookAddItem envW ("h") ("SessionStart") ("node x.js") ("") ("*") false stDup).1.success
      = false ∧
    (hookAddItem envW ("h") ("SessionStart") ("node x.js") ("") ("*") false stDup).2 = stDup ∧
    (hookAddItem envW ("h") ("SessionStart") ("node x.js") ("") ("*") false stEmpty).1.success
      = true ∧
    (hookAddItem envW ("h") ("SessionStart") ("node x.js") ("") ("*") false stEmpty).2.registry =
      [{ name := ("h"), event := ("SessionStart"), matcher := ("*"), async := false
         managed := true, description := "", command := ("node x.js") }] ∧
    (skillAddItem envW ("s") ("P") none skillReg0).1.success = false ∧
    (skillAddItem envW ("t") ("Q") none skillReg0).1.success = true := by
  have h1 := (C2_add envW stDup skillReg0 ("h") ("SessionStart") ("node x.js") ("") ("*")
    ("s") ("P") false none).1 (by decide) (by decide) (by decide)
    ⟨{ name := ("h"), event := ("SessionStart"), matcher := ("*"), async := false
       managed := true, description := "", command := ("node x.js") }, by decide⟩
  have h2 := (C2_add envW stEmpty skillReg0 ("h") ("SessionStart") ("node x.js") ("") ("*")
    ("s") ("P") false none).2.1 (by decide) (by decide) (by decide) (by decide) (by decide)
  have h3 := (C2_add envW stDup skillReg0 ("h") ("SessionStart") ("node x.js") ("") ("*")
    ("s") ("P") false none).2.2.1 (by decide)
    ⟨{ id := ("s"), name := ("s"), keywords := [], skillPath := ("P"), enabled := true },
     by decide⟩
  have h4 := (C2_add envW stDup skillReg0 ("h") ("SessionStart") ("node x.js") ("") ("*")
    ("t") ("Q") false none).2.2.2 (by decide) (by decide) (by decide) (by decide) (by decide)
  refine ⟨h1.1, h1.2, h2.1, ?_, h3.1, h4.1⟩
  rw [h2.2.2.1]
  rfl

/-! ### C3 -/

/-- C3 as stated is false for the Capability (skill) kind: removing a
registered skill whose descriptor file exists performs no archive move (the
source leaves files on disk untouched) and returns no archive path. -/
theorem C3_counterexample :
    envP.isfile ("P") = true ∧
    skillReg0.head?.map SkillEntry.skillPath = some ("P") ∧
    (skillRemoveItem ("s") skillReg0).1.success = true ∧
    (skillRemoveItem ("s") skillReg0).2.2 = [] ∧
    (skillRemoveItem ("s") skillReg0).1.message =
      ("Removed skill ") ++ pyRepr ("s") ++ (" from registry (files on disk untouched)") :=
  ⟨by decide, by decide, by decide, by decide, by decide⟩

/-- C3 amended: Hook `remove` archives the backing script when that file
exists (a single move to the timestamped archive path — never a deletion),
removes the live-store entry and the registry entry, and returns the
archive path; Capability (skill) `remove` removes only the registry entry,
deliberately leaving files on disk untouched and returning no archive path;
for both kinds, removing a nonexistent id is a not-found failure that
changes nothing. -/
theorem C3_amended (env : Env) (st : HookState) (skillReg : List SkillEntry)
    (name sname : String) :
    (findRegistryEntry name st.registry = none →
     findSettingsEntry name (readSettingsHooks env st.settings) = none →
     (hookRemoveItem env name st).1.success = false ∧
     (hookRemoveItem env name st).2.1 = st ∧
     (hookRemoveItem env name st).2.2 = []) ∧
    (∀ entry sp, findRegistryEntry name st.registry = some entry →
     (entry.command == "") = false →
     extractFilePath env entry.command = some sp →
     env.isfile sp = true →
     (hookRemoveItem env name st).1.success = true ∧
     (hookRemoveItem env name st).1.archived =
       some (archivePath env sp (("removed-hook-") ++ name)) ∧
     (hookRemoveItem env name st).2.2 =
       [(sp, archivePath env sp (("removed-hook-") ++ name))] ∧
     (hookRemoveItem env name st).2.1.registry =
       st.registry.filter (fun h => h.name != name) ∧
     (hookRemoveItem env name st).2.1.settings =
       (removeHookFromSettings entry.command st.settings).1) ∧
    (findSkillEntry sname skillReg = none →
     (skillRemoveItem sname skillReg).1.success = false ∧
     (skillRemoveItem sname skillReg).2.1 = skillReg) ∧
    ((∃ e, findSkillEntry sname skillReg = some e) →
     (skillRemoveItem sname skillReg).1.success = true ∧
     (skillRemoveItem sname skillReg).2.1 =
       skillReg.filter (fun s => s.id != sname && s.name != sname) ∧
     (skillRemoveItem sname skillReg).2.2 = []) := by
  refine ⟨?_, ?_, ?_, ?_⟩
  · intro hreg hset
    simp [hookRemoveItem, hreg, hset]
  · intro entry sp hreg hcmd hpath hfile
    simp [hookRemoveItem, hreg, hcmd, hpath, hfile]
  · intro hfind
    simp [skillRemoveItem, hfind]
  · intro ⟨e, he⟩
    simp [skillRemoveItem, he]

/-- Witness for C3's amended statement: hook removal with an existing
script, hook removal of an unknown name, and both skill branches, at
concrete states. -/
theorem C3_witness :
    (hookRemoveItem envW ("zzz") stEmpty).1.success = false ∧
    (hookRemoveItem envP ("h") stP).1.success = true ∧
    (hookRemoveItem envP ("h") stP).1.archived =
      some (archivePath envP ("P") (("removed-hook-") ++ ("h"))) ∧
    (hookRemoveItem envP ("h") stP).2.2 =
      [(("P"), archivePath envP ("P") (("removed-hook-") ++ ("h")))] ∧
    (skillRemoveItem ("zzz") skillReg0).1.success = false ∧
    (skillRemoveItem ("s") skillReg0).2.2 = [] := by
  have h1 := (C3_amended envW stEmpty skillReg0 ("zzz") ("zzz")).1 (by decide) (by decide)
  have h2 := (C3_amended envP stP skillReg0 ("h") ("zzz")).2.1
    { name := ("h"), event := ("SessionStart"), matcher := ("*"), async := false
      managed := true, description := "", command := ("node \x22P\x22") }
    ("P") (by decide) (by decide) (by decide) (by decide)
  have h3 := (C3_amended envP stP skillReg0 ("h") ("zzz")).2.2.1 (by decide)
  have h4 := (C3_amended envP stP skillReg0 ("h") ("s")).2.2.2
    ⟨{ id := ("s"), name := ("s"), keywords := [], skillPath := ("P"), enabled := true },
     by decide⟩
  exact ⟨h1.1, h2.1, h2.2.1, h2.2.2.1, h3.1, h4.2.2⟩

/-! ### C1 -/

theorem contains_false_iff (l : List String) (x : String) :
    l.contains x = false ↔ x ∉ l := by
  induction l with
  | nil => simp
  | cons a as ih =>
    simp only [List.contains_cons, Bool.or_eq_false_iff, ih, List.mem_cons,
      beq_eq_false_iff_ne, ne_eq]
    tauto

theorem mkRegistryItem_name (env : Env) (sh : List FlatHook) (rh : RegHook) :
    (mkRegistryItem env sh rh).name = rh.name := by
  cases h : findSettingsEntry rh.name sh <;> simp [mkRegistryItem, h]

theorem findSettingsEntry_none_iff (name : String) (l : List FlatHook) :
    findSettingsEntry name l = none ↔ name ∉ l.map FlatHook.name := by
  induction l with
  | nil => simp [findSettingsEntry]
  | cons x xs ih =>
    cases hx : (x.name == name) with
    | true =>
      have hx2 : x.name = name := by simpa using hx
      simp [findSettingsEntry, List.find?_cons, hx, hx2]
    | false =>
      have hx2 : ¬ x.name = name := by simpa using hx
      simp only [findSettingsEntry, List.find?_cons, hx, List.map_cons, List.mem_cons]
      rw [findSettingsEntry] at ih
      simp [ih]
      tauto

theorem mkRegistryItem_props (env : Env) (sh : List FlatHook) (rh : RegHook) :
    (mkRegistryItem env sh rh).inRegistry = true ∧
    (mkRegistryItem env sh rh).status =
      (if rh.name ∈ sh.map FlatHook.name then ("active") else ("disabled")) := by
  cases h : findSettingsEntry rh.name sh with
  | some fh =>
    have hmem : rh.name ∈ sh.map FlatHook.name := by
      have h1 := List.find?_some h
      have h2 := List.mem_of_find?_eq_some h
      have : fh.name = rh.name := by simpa using h1
      exact this ▸ List.mem_map_of_mem FlatHook.name h2
    simp [mkRegistryItem, h, hmem]
  | none =>
    have hmem := (findSettingsEntry_none_iff rh.name sh).mp h
    simp [mkRegistryItem, h, hmem]

theorem orphanItems_mem (env : Env) :
    ∀ (flats : List FlatHook) (seen : List String) (it : HookItem),
      it ∈ orphanItems env flats seen →
      it.status = ("orphaned-settings") ∧ it.inRegistry = false ∧
      seen.contains it.name = false ∧ it.name ∈ flats.map FlatHook.name := by
  intro flats
  induction flats with
  | nil => intro seen it h; simp [orphanItems] at h
  | cons sh rest ih =>
    intro seen it h
    cases hc : seen.contains sh.name with
    | true =>
      rw [orphanItems, hc] at h
      simp only [if_true] at h
      obtain ⟨h1, h2, h3, h4⟩ := ih seen it h
      exact ⟨h1, h2, h3, by simp [h4]⟩
    | false =>
      rw [orphanItems, hc] at h
      simp only [Bool.false_eq_true, if_false] at h
      rcases List.mem_cons.mp h with he | ht
      · subst he
        exact ⟨rfl, rfl, hc, by simp⟩
      · obtain ⟨h1, h2, h3, h4⟩ := ih (sh.name :: seen) it ht
        refine ⟨h1, h2, ?_, by simp [h4]⟩
        simp only [List.contains_cons, Bool.or_eq_false_iff] at h3
        exact h3.2

theorem orphanItems_names (env : Env) :
    ∀ (flats : List FlatHook) (seen : List String) (n : String),
      n ∈ (orphanItems env flats seen).map HookItem.name ↔
      (n ∈ flats.map FlatHook.name ∧ seen.contains n = false) := by
  intro flats
  induction flats with
  | nil => intro seen n; simp [orphanItems]
  | cons sh rest ih =>
    intro seen n
    cases hc : seen.contains sh.name with
    | true =>
      rw [orphanItems, hc]
      simp only [if_true, List.map_cons, List.mem_cons, ih]
      constructor
      · rintro ⟨h1, h2⟩; exact ⟨Or.inr h1, h2⟩
      · rintro ⟨h1 | h1, h2⟩
        · subst h1; rw [hc] at h2; cases h2
        · exact ⟨h1, h2⟩
    | false =>
      rw [orphanItems, hc]
      simp only [Bool.false_eq_true, if_false, List.map_cons, List.mem_cons, ih,
        List.contains_cons, Bool.or_eq_false_iff, beq_eq_false_iff_ne, ne_eq]
      by_cases hn : n = sh.name
      · subst hn
        simp [hc, (contains_false_iff seen sh.name).mp hc]
      · simp only [hn, false_or]
        tauto

theorem orphanItems_names_nodup (env : Env) :
    ∀ (flats : List FlatHook) (seen : List String),
      ((orphanItems env flats seen).map HookItem.name).Nodup := by
  intro flats
  induction flats with
  | nil => intro seen; simp [orphanItems]
  | cons sh rest ih =>
    intro seen
    cases hc : seen.contains sh.name with
    | true => rw [orphanItems, hc]; simpa using ih seen
    | false =>
      rw [orphanItems, hc]
      simp only [Bool.false_eq_true, if_false, List.map_cons, List.nodup_cons]
      refine ⟨?_, ih (sh.name :: seen)⟩
      intro hmem
      have := ((orphanItems_names env rest (sh.name :: seen) sh.name).mp hmem).2
      simp [List.contains_cons] at this

/-- C1: `list_all` classifies every hook identifier from the live store
(the flattened settings hooks) and the registry exactly once — no id is
dropped or duplicated (given the registry invariant that names are unique,
which `add_item`'s duplicate rejection maintains) — and the status is
`active` for ids in both stores, `disabled` (the spec's
"registered (disabled)") for registry-only ids, and `orphaned-settings`
(the spec's "orphaned-live") for live-only ids. -/
theorem C1_list_all (env : Env) (settings : HooksSection) (registry : List RegHook)
    (hnd : (registry.map RegHook.name).Nodup) :
    ((hookListAll env settings registry).map HookItem.name).Nodup ∧
    (∀ n, n ∈ (hookListAll env settings registry).map HookItem.name ↔
      (n ∈ (readSettingsHooks env settings).map FlatHook.name ∨
       n ∈ registry.map RegHook.name)) ∧
    (∀ it ∈ hookListAll env settings registry,
      it.status =
        if it.name ∈ registry.map RegHook.name then
          (if it.name ∈ (readSettingsHooks env settings).map FlatHook.name then ("active")
           else ("disabled"))
        else ("orphaned-settings")) := by
  set flats := readSettingsHooks env settings with hflats
  have hregnames : (registry.map (mkRegistryItem env flats)).map HookItem.name =
      registry.map RegHook.name := by
    rw [List.map_map]
    exact List.map_congr_left (fun rh _ => mkRegistryItem_name env flats rh)
  have hitems : hookListAll env settings registry =
      registry.map (mkRegistryItem env flats) ++
        orphanItems env flats (registry.map RegHook.name) := rfl
  refine ⟨?_, ?_, ?_⟩
  · rw [hitems, List.map_append, hregnames, List.nodup_append]
    refine ⟨hnd, orphanItems_names_nodup env _ _, ?_⟩
    intro n hn hn2
    have := ((orphanItems_names env flats (registry.map RegHook.name) n).mp hn2).2
    exact ((contains_false_iff _ _).mp this) hn
  · intro n
    rw [hitems, List.map_append, hregnames, List.mem_append,
      orphanItems_names env flats (registry.map RegHook.name) n]
    by_cases hR : n ∈ registry.map RegHook.name
    · simp [hR]
    · have : (registry.map RegHook.name).contains n = false := by
        rw [contains_false_iff]; exact hR
      simp [hR, this]
  · intro it hit
    rw [hitems, List.mem_append] at hit
    rcases hit with hreg | horph
    · obtain ⟨rh, hrh, hmk⟩ := List.mem_map.mp hreg
      have hname : it.name = rh.name := by rw [← hmk]; exact mkRegistryItem_name env flats rh
      have hR : it.name ∈ registry.map RegHook.name := by
        rw [hname]; exact List.mem_map_of_mem RegHook.name hrh
      rw [if_pos hR, ← hmk, (mkRegistryItem_props env flats rh).2,
        mkRegistryItem_name env flats rh]
    · obtain ⟨h1, _, h3, _⟩ := orphanItems_mem env flats (registry.map RegHook.name) it horph
      rw [if_neg ((contains_false_iff _ _).mp h3), h1]

/-- Witness for C1 at a concrete pair of stores (registry-only hook `h`,
live-only hook `o`). -/
theorem C1_witness :
    (registry1.map RegHook.name).Nodup ∧
    ((hookListAll envW settings1 registry1).map HookItem.name).Nodup ∧
    (("o") ∈ (hookListAll envW settings1 registry1).map HookItem.name ↔
      (("o") ∈ (readSettingsHooks envW settings1).map FlatHook.name ∨
       ("o") ∈ registry1.map RegHook.name)) :=
  ⟨by decide, (C1_list_all envW settings1 registry1 (by decide)).1,
   (C1_list_all envW settings1 registry1 (by decide)).2.1 ("o")⟩

/-! ### C8 -/

theorem contains_true_iff (l : List String) (x : String) :
    l.contains x = true ↔ x ∈ l := by
  constructor
  · intro h
    by_contra hx
    rw [← contains_false_iff] at hx
    rw [hx] at h
    cases h
  · intro h
    cases hc : l.contains x with
    | true => rfl
    | false => exact absurd h ((contains_false_iff l x).mp hc)

theorem mem_insertSorted (x y : String) (l : List String) :
    y ∈ insertSorted x l ↔ y = x ∨ y ∈ l := by
  induction l with
  | nil => simp [insertSorted]
  | cons a as ih =>
    by_cases h : x < a
    · simp [insertSorted, h]
    · simp only [insertSorted, h, if_false, List.mem_cons, ih]
      tauto

theorem mem_sortStrings (x : String) (l : List String) :
    x ∈ sortStrings l ↔ x ∈ l := by
  induction l with
  | nil => simp [sortStrings]
  | cons a as ih =>
    simp only [sortStrings, List.foldr_cons] at ih ⊢
    rw [mem_insertSorted, ih, List.mem_cons]

theorem mem_of_getLast_opt {α : Type} :
    ∀ (l : List α) (a : α), l.getLast? = some a → a ∈ l
  | [], _, h => by simp at h
  | [x], a, h => by
    simp only [List.getLast?_singleton, Option.some.injEq] at h
    simp [h]
  | x :: y :: ys, a, h => by
    rw [List.getLast?_cons_cons] at h
    exact List.mem_cons_of_mem x (mem_of_getLast_opt (y :: ys) a h)

theorem hookRegKeys_subset (reg : List RegHook) (n : String) :
    n ∈ hookRegKeys reg → n ∈ reg.map RegHook.name := by
  intro h
  rw [hookRegKeys, List.mem_dedup] at h
  exact (List.mem_filter.mp h).1

theorem mem_allHookNames (dn : List String) (s : List (String × SetHookInfo))
    (reg : List RegHook) (n : String) :
    n ∈ allHookNames dn s reg ↔
      (n ∈ dn ∨ n ∈ s.map (fun p => p.1) ∨ n ∈ hookRegKeys reg) := by
  rw [allHookNames, mem_sortStrings, List.mem_dedup, List.mem_append, List.mem_append]
  tauto

theorem discoverHookRow_name (dn : List String) (s : List (String × SetHookInfo))
    (reg : List RegHook) (n : String) : (discoverHookRow dn s reg n).name = n := by
  simp only [discoverHookRow]
  cases alookup n s <;> dsimp only <;> split <;> rfl

theorem discoverHookRow_props (dn : List String) (s : List (String × SetHookInfo))
    (reg : List RegHook) (n : String) :
    ((discoverHookRow dn s reg n).inRegistry = false →
      (discoverHookRow dn s reg n).status = DStatus.managed ∨
      (discoverHookRow dn s reg n).status = DStatus.registered) ∧
    ((discoverHookRow dn s reg n).inRegistry = true →
      n ∈ reg.map RegHook.name) := by
  simp only [discoverHookRow]
  cases alookup n s with
  | some info =>
    dsimp only
    split
    · next hguard =>
      refine ⟨fun hf => (nomatch hf), fun _ => ?_⟩
      have hc := ((Bool.and_eq_true _ _).mp hguard).1
      exact hookRegKeys_subset reg n ((contains_true_iff _ _).mp hc)
    · refine ⟨fun _ => Or.inl rfl, fun ht => ?_⟩
      exact hookRegKeys_subset reg n ((contains_true_iff _ _).mp ht)
  | none =>
    dsimp only
    split
    · next hguard =>
      refine ⟨fun hf => (nomatch hf), fun _ => ?_⟩
      have hc := ((Bool.and_eq_true _ _).mp hguard).1
      exact hookRegKeys_subset reg n ((contains_true_iff _ _).mp hc)
    · refine ⟨fun _ => Or.inr rfl, fun ht => ?_⟩
      exact hookRegKeys_subset reg n ((contains_true_iff _ _).mp ht)

theorem registerHook_mono (n e c m : String) (a : Bool) (reg : List RegHook) (x : String)
    (hx : x ∈ reg.map RegHook.name) :
    x ∈ (registerHook n e c m a reg).2.map RegHook.name := by
  unfold registerHook
  split
  · exact hx
  · simp only [List.map_append, List.mem_append]
    exact Or.inl hx

theorem registerHook_self (n e c m : String) (a : Bool) (reg : List RegHook) :
    n ∈ (registerHook n e c m a reg).2.map RegHook.name := by
  unfold registerHook
  split
  · next hany =>
    obtain ⟨h, hh, hbeq⟩ := List.any_eq_true.mp hany
    have hn : h.name = n := by simpa using hbeq
    exact hn ▸ List.mem_map_of_mem RegHook.name hh
  · simp

theorem any_name_of_mem (reg : List RegHook) (n : String)
    (h : n ∈ reg.map RegHook.name) : reg.any (fun x => x.name == n) = true := by
  obtain ⟨x, hx, hxn⟩ := List.mem_map.mp h
  exact List.any_eq_true.mpr ⟨x, hx, by simp [hxn]⟩

theorem hookRegStep_mono (d : DHook) (acc : Nat × List RegHook) (x : String)
    (hx : x ∈ acc.2.map RegHook.name) :
    x ∈ (hookRegStep d acc).2.map RegHook.name := by
  cases hst : d.status
  case managed =>
    cases hir : d.inRegistry <;> simp only [hookRegStep, hst, hir]
    · simpa using registerHook_mono _ _ _ _ _ _ _ hx
    · simpa using hx
  case registered =>
    cases hir : d.inRegistry <;> simp only [hookRegStep, hst, hir]
    · simpa using registerHook_mono _ _ _ _ _ _ _ hx
    · simpa using hx
  case orphaned => simpa [hookRegStep, hst] using hx
  case new => simpa [hookRegStep, hst] using hx

theorem foldl_hookRegStep_mono (ds : List DHook) (acc : Nat × List RegHook) (x : String)
    (hx : x ∈ acc.2.map RegHook.name) :
    x ∈ (ds.foldl (fun a d => hookRegStep d a) acc).2.map RegHook.name := by
  induction ds generalizing acc with
  | nil => exact hx
  | cons d rest ih => exact ih (hookRegStep d acc) (hookRegStep_mono d acc x hx)

theorem foldl_hookRegStep_covers (ds : List DHook) (acc : Nat × List RegHook) (d : DHook)
    (hd : d ∈ ds) (hst : d.status = DStatus.managed ∨ d.status = DStatus.registered)
    (hir : d.inRegistry = false) :
    d.name ∈ (ds.foldl (fun a x => hookRegStep x a) acc).2.map RegHook.name := by
  induction ds generalizing acc with
  | nil => cases hd
  | cons d0 rest ih =>
    rcases List.mem_cons.mp hd with rfl | hmem
    · rw [List.foldl_cons]
      apply foldl_hookRegStep_mono
      rcases hst with h | h
      · simp only [hookRegStep, h, hir, Bool.not_false, if_true]
        exact registerHook_self _ _ _ _ _ _
      · simp only [hookRegStep, h, hir, Bool.not_false, if_true]
        exact registerHook_self _ _ _ _ _ _
    · rw [List.foldl_cons]
      exact ih _ hmem

theorem hookRegStep_id (d : DHook) (acc : Nat × List RegHook)
    (hcov : d.inRegistry = false → d.name ∈ acc.2.map RegHook.name) :
    hookRegStep d acc = acc := by
  have hreg : ∀ (e c m : String) (a : Bool), d.inRegistry = false →
      registerHook d.name e c m a acc.2 = (false, acc.2) := by
    intro e c m a hir
    unfold registerHook
    rw [if_pos (any_name_of_mem acc.2 d.name (hcov hir))]
  cases hst : d.status
  case managed =>
    cases hir : d.inRegistry
    · simp [hookRegStep, hst, hir, hreg _ _ _ _ hir]
    · simp [hookRegStep, hst, hir]
  case registered =>
    cases hir : d.inRegistry
    · simp [hookRegStep, hst, hir, hreg _ _ _ _ hir]
    · simp [hookRegStep, hst, hir]
  case orphaned => simp [hookRegStep, hst]
  case new => simp [hookRegStep, hst]

theorem foldl_hookRegStep_fixed (ds : List DHook) (acc : Nat × List RegHook)
    (hcov : ∀ d ∈ ds, d.inRegistry = false → d.name ∈ acc.2.map RegHook.name) :
    ds.foldl (fun a x => hookRegStep x a) acc = acc := by
  induction ds with
  | nil => rfl
  | cons d rest ih =>
    rw [List.foldl_cons, hookRegStep_id d acc (hcov d (List.mem_cons_self d rest))]
    exact ih (fun d2 h2 => hcov d2 (List.mem_cons_of_mem d h2))

theorem syncHookManagedFlags_names (s : List (String × SetHookInfo)) (reg : List RegHook) :
    (syncHookManagedFlags s reg).map RegHook.name = reg.map RegHook.name := by
  unfold syncHookManagedFlags
  rw [List.map_map]
  exact List.map_congr_left fun h _ => rfl

theorem runHooksPass_covers (dn : List String) (s : List (String × SetHookInfo))
    (reg : List RegHook) (n : String) (hn : n ∈ allHookNames dn s reg) :
    n ∈ (runHooksPass dn s reg).2.map RegHook.name := by
  show n ∈ (syncHookManagedFlags s
    ((discoverHooks dn s reg).foldl (fun acc d => hookRegStep d acc) (0, reg)).2).map
      RegHook.name
  rw [syncHookManagedFlags_names]
  have hrow : discoverHookRow dn s reg n ∈ discoverHooks dn s reg :=
    List.mem_map_of_mem _ hn
  have hprops := discoverHookRow_props dn s reg n
  cases hir : (discoverHookRow dn s reg n).inRegistry
  · have hname := discoverHookRow_name dn s reg n
    have := foldl_hookRegStep_covers (discoverHooks dn s reg) (0, reg) _ hrow
      (hprops.1 hir) hir
    rwa [hname] at this
  · exact foldl_hookRegStep_mono _ _ _ (hprops.2 hir)

theorem runHooksPass_twice (dn : List String) (s : List (String × SetHookInfo))
    (reg : List RegHook) :
    (runHooksPass dn s (runHooksPass dn s reg).2).1 = 0 := by
  set reg1 := (runHooksPass dn s reg).2 with hreg1
  show ((discoverHooks dn s reg1).foldl (fun acc d => hookRegStep d acc) (0, reg1)).1 = 0
  have hcov : ∀ d ∈ discoverHooks dn s reg1, d.inRegistry = false →
      d.name ∈ (((0 : Nat), reg1) : Nat × List RegHook).2.map RegHook.name := by
    intro d hd _
    obtain ⟨n, hn, rfl⟩ := List.mem_map.mp hd
    rw [discoverHookRow_name]
    rcases (mem_allHookNames dn s reg1 n).mp hn with h | h | h
    · exact runHooksPass_covers dn s reg n ((mem_allHookNames dn s reg n).mpr (Or.inl h))
    · exact runHooksPass_covers dn s reg n
        ((mem_allHookNames dn s reg n).mpr (Or.inr (Or.inl h)))
    · exact hookRegKeys_subset reg1 n h
  rw [foldl_hookRegStep_fixed (discoverHooks dn s reg1) (0, reg1) hcov]

theorem skillRegKeys_subset (reg : List SkillEntry) (n : String) :
    n ∈ skillRegKeys reg → n ∈ reg.map SkillEntry.id := by
  intro h
  rw [skillRegKeys, List.mem_dedup] at h
  exact (List.mem_filter.mp h).1

theorem mem_allSkillIds (dsk : List (String × String)) (reg : List SkillEntry)
    (n : String) :
    n ∈ allSkillIds dsk reg ↔
      (n ∈ dsk.map (fun p => p.1) ∨ n ∈ skillRegKeys reg) := by
  rw [allSkillIds, mem_sortStrings, List.mem_dedup, List.mem_append]

theorem discoverSkillRow_id (isfile : String → Bool) (dsk : List (String × String))
    (reg : List SkillEntry) (n : String) : (discoverSkillRow isfile dsk reg n).id = n := by
  simp only [discoverSkillRow]
  cases (reg.filter (fun s => s.id == n)).getLast? <;> dsimp only <;>
    (try split) <;> (try split) <;> (try split) <;> rfl

theorem discoverSkillRow_props (isfile : String → Bool) (dsk : List (String × String))
    (reg : List SkillEntry) (n : String) :
    ((discoverSkillRow isfile dsk reg n).inRegistry = false →
      (discoverSkillRow isfile dsk reg n).status = DStatus.new) ∧
    ((discoverSkillRow isfile dsk reg n).inRegistry = true →
      n ∈ reg.map SkillEntry.id) := by
  simp only [discoverSkillRow]
  cases hL : (reg.filter (fun s => s.id == n)).getLast? with
  | none => exact ⟨fun _ => rfl, fun h => (nomatch h)⟩
  | some entry =>
    have hmem : n ∈ reg.map SkillEntry.id := by
      have h1 := mem_of_getLast_opt _ _ hL
      have h2 := List.mem_filter.mp h1
      have h3 : entry.id = n := by simpa using h2.2
      exact h3 ▸ List.mem_map_of_mem SkillEntry.id h2.1
    dsimp only
    split
    · exact ⟨fun _ => rfl, fun h => (nomatch h)⟩
    · split
      · exact ⟨fun h => (nomatch h), fun _ => hmem⟩
      · split
        · exact ⟨fun h => (nomatch h), fun _ => hmem⟩
        · exact ⟨fun h => (nomatch h), fun _ => hmem⟩

theorem registerSkill_mono (n p : String) (reg : List SkillEntry) (x : String)
    (hx : x ∈ reg.map SkillEntry.id) :
    x ∈ (registerSkill n p reg).2.map SkillEntry.id := by
  unfold registerSkill
  split
  · exact hx
  · simp only [List.map_append, List.mem_append]
    exact Or.inl hx

theorem registerSkill_self (n p : String) (reg : List SkillEntry) :
    n ∈ (registerSkill n p reg).2.map SkillEntry.id := by
  unfold registerSkill
  split
  · next hany =>
    obtain ⟨h, hh, hbeq⟩ := List.any_eq_true.mp hany
    have hn : h.id = n := by simpa using hbeq
    exact hn ▸ List.mem_map_of_mem SkillEntry.id hh
  · simp

theorem any_id_of_mem (reg : List SkillEntry) (n : String)
    (h : n ∈ reg.map SkillEntry.id) : reg.any (fun x => x.id == n) = true := by
  obtain ⟨x, hx, hxn⟩ := List.mem_map.mp h
  exact List.any_eq_true.mpr ⟨x, hx, by simp [hxn]⟩

theorem skillRegStep_mono (d : DSkill) (acc : Nat × List SkillEntry) (x : String)
    (hx : x ∈ acc.2.map SkillEntry.id) :
    x ∈ (skillRegStep d acc).2.map SkillEntry.id := by
  cases hst : d.status <;> simp only [skillRegStep, hst]
  case new => simpa using registerSkill_mono _ _ _ _ hx
  all_goals simpa using hx

theorem foldl_skillRegStep_mono (ds : List DSkill) (acc : Nat × List SkillEntry)
    (x : String) (hx : x ∈ acc.2.map SkillEntry.id) :
    x ∈ (ds.foldl (fun a d => skillRegStep d a) acc).2.map SkillEntry.id := by
  induction ds generalizing acc with
  | nil => exact hx
  | cons d rest ih => exact ih (skillRegStep d acc) (skillRegStep_mono d acc x hx)

theorem foldl_skillRegStep_covers (ds : List DSkill) (acc : Nat × List SkillEntry)
    (d : DSkill) (hd : d ∈ ds) (hst : d.status = DStatus.new) :
    d.id ∈ (ds.foldl (fun a x => skillRegStep x a) acc).2.map SkillEntry.id := by
  induction ds generalizing acc with
  | nil => cases hd
  | cons d0 rest ih =>
    rcases List.mem_cons.mp hd with rfl | hmem
    · rw [List.foldl_cons]
      apply foldl_skillRegStep_mono
      simp only [skillRegStep, hst]
      exact registerSkill_self _ _ _
    · rw [List.foldl_cons]
      exact ih _ hmem

theorem skillRegStep_id (d : DSkill) (acc : Nat × List SkillEntry)
    (hcov : d.status = DStatus.new → d.id ∈ acc.2.map SkillEntry.id) :
    skillRegStep d acc = acc := by
  cases hst : d.status <;> simp only [skillRegStep, hst]
  case new =>
    have : registerSkill d.id d.skillPath acc.2 = (false, acc.2) := by
      unfold registerSkill
      rw [if_pos (any_id_of_mem acc.2 d.id (hcov hst))]
    simp [this]

theorem foldl_skillRegStep_fixed (ds : List DSkill) (acc : Nat × List SkillEntry)
    (hcov : ∀ d ∈ ds, d.status = DStatus.new → d.id ∈ acc.2.map SkillEntry.id) :
    ds.foldl (fun a x => skillRegStep x a) acc = acc := by
  induction ds with
  | nil => rfl
  | cons d rest ih =>
    rw [List.foldl_cons, skillRegStep_id d acc (hcov d (List.mem_cons_self d rest))]
    exact ih (fun d2 h2 => hcov d2 (List.mem_cons_of_mem d h2))

theorem runSkillsPass_covers (isfile : String → Bool) (dsk : List (String × String))
    (reg : List SkillEntry) (n : String) (hn : n ∈ allSkillIds dsk reg) :
    n ∈ (runSkillsPass isfile dsk reg).2.map SkillEntry.id := by
  show n ∈ ((discoverSkills isfile dsk reg).foldl
    (fun acc d => skillRegStep d acc) (0, reg)).2.map SkillEntry.id
  have hrow : discoverSkillRow isfile dsk reg n ∈ discoverSkills isfile dsk reg :=
    List.mem_map_of_mem _ hn
  have hprops := discoverSkillRow_props isfile dsk reg n
  cases hir : (discoverSkillRow isfile dsk reg n).inRegistry
  · have hname := discoverSkillRow_id isfile dsk reg n
    have := foldl_skillRegStep_covers (discoverSkills isfile dsk reg) (0, reg) _ hrow
      (hprops.1 hir)
    rwa [hname] at this
  · exact foldl_skillRegStep_mono _ _ _ (hprops.2 hir)

theorem runSkillsPass_twice (isfile : String → Bool) (dsk : List (String × String))
    (reg : List SkillEntry) :
    (runSkillsPass isfile dsk (runSkillsPass isfile dsk reg).2).1 = 0 := by
  set reg1 := (runSkillsPass isfile dsk reg).2 with hr1
  show ((discoverSkills isfile dsk reg1).foldl
    (fun acc d => skillRegStep d acc) (0, reg1)).1 = 0
  have hcov : ∀ d ∈ discoverSkills isfile dsk reg1, d.status = DStatus.new →
      d.id ∈ (((0 : Nat), reg1) : Nat × List SkillEntry).2.map SkillEntry.id := by
    intro d hd _
    obtain ⟨n, hn, rfl⟩ := List.mem_map.mp hd
    rw [discoverSkillRow_id]
    rcases (mem_allSkillIds dsk reg1 n).mp hn with h | h
    · exact runSkillsPass_covers isfile dsk reg n
        ((mem_allSkillIds dsk reg n).mpr (Or.inl h))
    · exact skillRegKeys_subset reg1 n h
  rw [foldl_skillRegStep_fixed (discoverSkills isfile dsk reg1) (0, reg1) hcov]

/-- C8: running discovery in auto-register mode twice over unchanged disk
scans and settings registers zero new items on the second run — every hook
and skill the first run added is found in its registry by the second run,
whose per-item registration calls all report the item as already present
(`register_hook` / `register_skill` return `False`), so the
`newly_registered` counter stays zero. -/
theorem C8_discovery_idempotent (dn : List String) (s : List (String × SetHookInfo))
    (isfile : String → Bool) (dsk : List (String × String)) (st : DiscoveryState) :
    (runDiscovery dn s isfile dsk (runDiscovery dn s isfile dsk st).2).1 = 0 := by
  show (runHooksPass dn s (runHooksPass dn s st.hookReg).2).1 +
       (runSkillsPass isfile dsk (runSkillsPass isfile dsk st.skillReg).2).1 = 0
  rw [runHooksPass_twice, runSkillsPass_twice]

/-! ### C4 -/

/-- No entry anywhere in the hooks section carries this command string. -/
def noCmd (c : String) (hs : HooksSection) : Prop :=
  ∀ eg ∈ hs, ∀ g ∈ eg.2, ∀ h ∈ g.hooks, ¬ h.command = c

/-- Well-formed section: no empty event bucket and no empty matcher group
(the shape every store reachable through this code's own writes has, since
`_remove_hook_from_settings` prunes empties and `_add_hook_to_settings`
only appends). -/
abbrev wfSection (hs : HooksSection) : Prop :=
  ∀ eg ∈ hs, eg.2 ≠ [] ∧ ∀ g ∈ eg.2, g.hooks ≠ []

theorem settingsHasCommand_false_iff (c : String) (hs : HooksSection) :
    settingsHasCommand c hs = false ↔ noCmd c hs := by
  rw [Bool.eq_false_iff, Ne, settingsHasCommand, noCmd]
  simp [List.any_eq_true]

theorem removeFromGroups_cons (c : String) (x : MatcherGroup) (xs : List MatcherGroup) :
    removeFromGroups c (x :: xs) =
      if !((x.hooks.filter (fun h => h.command != c)).isEmpty) then
        { x with hooks := x.hooks.filter (fun h => h.command != c) } ::
          removeFromGroups c xs
      else removeFromGroups c xs := by
  simp [removeFromGroups, List.filter_cons]

theorem removeFromGroups_noop (c : String) (gs : List MatcherGroup)
    (hwf : ∀ g ∈ gs, g.hooks ≠ [])
    (hnc : ∀ g ∈ gs, ∀ h ∈ g.hooks, ¬ h.command = c) :
    removeFromGroups c gs = gs := by
  induction gs with
  | nil => rfl
  | cons g gs ih =>
    have hfe : g.hooks.filter (fun h => h.command != c) = g.hooks := by
      apply List.filter_eq_self.mpr
      intro h hh
      simpa using hnc g (List.mem_cons_self g gs) h hh
    rw [removeFromGroups_cons, hfe,
      ih (fun g2 h2 => hwf g2 (List.mem_cons_of_mem g h2))
        (fun g2 h2 => hnc g2 (List.mem_cons_of_mem g h2))]
    have hne : g.hooks.isEmpty = false := by
      simpa [List.isEmpty_iff] using hwf g (List.mem_cons_self g gs)
    rw [hne]
    rfl

theorem removeFromGroups_add (c m : String) (a : Bool) (gs : List MatcherGroup)
    (hwf : ∀ g ∈ gs, g.hooks ≠ [])
    (hnc : ∀ g ∈ gs, ∀ h ∈ g.hooks, ¬ h.command = c) :
    removeFromGroups c (addToGroups m c a gs) = gs := by
  induction gs with
  | nil => simp [addToGroups, removeFromGroups]
  | cons g gs ih =>
    have hwfg := hwf g (List.mem_cons_self g gs)
    have hncg := hnc g (List.mem_cons_self g gs)
    have hwft := fun g2 h2 => hwf g2 (List.mem_cons_of_mem g h2)
    have hnct := fun g2 h2 => hnc g2 (List.mem_cons_of_mem g h2)
    have hfe : g.hooks.filter (fun h => h.command != c) = g.hooks := by
      apply List.filter_eq_self.mpr
      intro h hh
      simpa using hncg h hh
    have hne : g.hooks.isEmpty = false := by
      simpa [List.isEmpty_iff] using hwfg
    cases hm : (g.matcher == m) with
    | true =>
      have hcont : ((g.hooks.map HookEntry.command).contains c) = false := by
        rw [contains_false_iff]
        intro hc
        obtain ⟨h, hh, hhc⟩ := List.mem_map.mp hc
        exact hncg h hh hhc
      simp only [addToGroups, hm, if_true, hcont, Bool.false_eq_true, if_false]
      rw [removeFromGroups_cons]
      dsimp only
      rw [List.filter_append, hfe]
      have : ([(⟨c, a⟩ : HookEntry)].filter (fun h => h.command != c)) = [] := by simp
      rw [this, List.append_nil, hne,
        removeFromGroups_noop c gs hwft hnct]
      rfl
    | false =>
      simp only [addToGroups, hm, Bool.false_eq_true, if_false]
      rw [removeFromGroups_cons, hfe, hne, ih hwft hnct]
      rfl

theorem removeHookCleanup_cons (c : String) (eg : String × List MatcherGroup)
    (rest : HooksSection) :
    removeHookCleanup c (eg :: rest) =
      if !((removeFromGroups c eg.2).isEmpty) then
        (eg.1, removeFromGroups c eg.2) :: removeHookCleanup c rest
      else removeHookCleanup c rest := by
  simp [removeHookCleanup, List.filter_cons]

theorem removeHookCleanup_noop (c : String) (hs : HooksSection)
    (hwf : wfSection hs) (hnc : noCmd c hs) :
    removeHookCleanup c hs = hs := by
  induction hs with
  | nil => rfl
  | cons eg rest ih =>
    have h1 := hwf eg (List.mem_cons_self eg rest)
    have hr : removeFromGroups c eg.2 = eg.2 :=
      removeFromGroups_noop c eg.2 h1.2 (hnc eg (List.mem_cons_self eg rest))
    have hne : eg.2.isEmpty = false := by simpa [List.isEmpty_iff] using h1.1
    rw [removeHookCleanup_cons, hr, hne,
      ih (fun e2 h2 => hwf e2 (List.mem_cons_of_mem eg h2))
        (fun e2 h2 => hnc e2 (List.mem_cons_of_mem eg h2))]
    rfl

theorem cleanup_add (c e m : String) (a : Bool) (hs : HooksSection)
    (hwf : wfSection hs) (hnc : noCmd c hs) :
    removeHookCleanup c (addHookToSettings e m c a hs) = hs := by
  induction hs with
  | nil => simp [addHookToSettings, removeHookCleanup, removeFromGroups]
  | cons eg rest ih =>
    have h1 := hwf eg (List.mem_cons_self eg rest)
    have hwft := fun e2 h2 => hwf e2 (List.mem_cons_of_mem eg h2)
    have hnct := fun e2 h2 => hnc e2 (List.mem_cons_of_mem eg h2)
    have hne : eg.2.isEmpty = false := by simpa [List.isEmpty_iff] using h1.1
    cases he : (eg.1 == e) with
    | true =>
      simp only [addHookToSettings, he, if_true]
      rw [removeHookCleanup_cons]
      dsimp only
      rw [removeFromGroups_add c m a eg.2 h1.2 (hnc eg (List.mem_cons_self eg rest)),
        hne, removeHookCleanup_noop c rest hwft hnct]
      rfl
    | false =>
      simp only [addHookToSettings, he, Bool.false_eq_true, if_false]
      rw [removeHookCleanup_cons,
        removeFromGroups_noop c eg.2 h1.2 (hnc eg (List.mem_cons_self eg rest)),
        hne, ih hwft hnct]
      rfl

theorem eventFlats_cons (env : Env) (ev : String) (g : MatcherGroup)
    (gs : List MatcherGroup) :
    eventFlats env ev (g :: gs) = groupFlats env ev g ++ eventFlats env ev gs := by
  simp [eventFlats]

theorem readSettingsHooks_cons (env : Env) (eg : String × List MatcherGroup)
    (rest : HooksSection) :
    readSettingsHooks env (eg :: rest) =
      eventFlats env eg.1 eg.2 ++ readSettingsHooks env rest := by
  simp [readSettingsHooks]

theorem mkFlat_mem_readSettingsHooks (env : Env) (hs : HooksSection)
    {eg : String × List MatcherGroup} {g : MatcherGroup} {h : HookEntry}
    (heg : eg ∈ hs) (hg : g ∈ eg.2) (hh : h ∈ g.hooks) :
    mkFlat env eg.1 g.matcher h ∈ readSettingsHooks env hs := by
  unfold readSettingsHooks
  rw [List.mem_flatten]
  refine ⟨eventFlats env eg.1 eg.2, List.mem_map_of_mem _ heg, ?_⟩
  unfold eventFlats
  rw [List.mem_flatten]
  exact ⟨groupFlats env eg.1 g, List.mem_map_of_mem _ hg, List.mem_map_of_mem _ hh⟩

theorem mem_eventFlats_add (env : Env) (ev m c : String) (a : Bool)
    (gs : List MatcherGroup) (fh : FlatHook)
    (hmem : fh ∈ eventFlats env ev (addToGroups m c a gs)) :
    fh ∈ eventFlats env ev gs ∨ fh = mkFlat env ev m ⟨c, a⟩ := by
  induction gs with
  | nil =>
    right
    simpa [addToGroups, eventFlats, groupFlats] using hmem
  | cons g gs ih =>
    cases hm : (g.matcher == m) with
    | true =>
      have hgm : g.matcher = m := by simpa using hm
      rw [show addToGroups m c a (g :: gs) =
          (if (g.hooks.map HookEntry.command).contains c then g
           else { g with hooks := g.hooks ++ [⟨c, a⟩] }) :: gs by
        simp [addToGroups, hm]] at hmem
      cases hcont : ((g.hooks.map HookEntry.command).contains c) with
      | true =>
        rw [hcont] at hmem
        exact Or.inl (by simpa using hmem)
      | false =>
        rw [hcont] at hmem
        simp only [Bool.false_eq_true, if_false] at hmem
        rw [eventFlats_cons] at hmem
        rcases List.mem_append.mp hmem with h1 | h2
        · unfold groupFlats at h1
          dsimp only at h1
          rw [List.map_append] at h1
          rcases List.mem_append.mp h1 with h3 | h4
          · exact Or.inl (by rw [eventFlats_cons]; exact List.mem_append_left _ h3)
          · right
            have : fh = mkFlat env ev g.matcher ⟨c, a⟩ := by simpa using h4
            rwa [hgm] at this
        · exact Or.inl (by rw [eventFlats_cons]; exact List.mem_append_right _ h2)
    | false =>
      rw [show addToGroups m c a (g :: gs) = g :: addToGroups m c a gs by
        simp [addToGroups, hm]] at hmem
      rw [eventFlats_cons] at hmem
      rcases List.mem_append.mp hmem with h1 | h2
      · exact Or.inl (by rw [eventFlats_cons]; exact List.mem_append_left _ h1)
      · rcases ih h2 with h3 | h3
        · exact Or.inl (by rw [eventFlats_cons]; exact List.mem_append_right _ h3)
        · exact Or.inr h3

theorem mkFlat_mem_eventFlats_add (env : Env) (ev m c : String) (a : Bool)
    (gs : List MatcherGroup)
    (hnc : ∀ g ∈ gs, ∀ h ∈ g.hooks, ¬ h.command = c) :
    mkFlat env ev m ⟨c, a⟩ ∈ eventFlats env ev (addToGroups m c a gs) := by
  induction gs with
  | nil => simp [addToGroups, eventFlats, groupFlats]
  | cons g gs ih =>
    cases hm : (g.matcher == m) with
    | true =>
      have hgm : g.matcher = m := by simpa using hm
      have hcont : ((g.hooks.map HookEntry.command).contains c) = false := by
        rw [contains_false_iff]
        intro hc
        obtain ⟨h, hh, hhc⟩ := List.mem_map.mp hc
        exact hnc g (List.mem_cons_self g gs) h hh hhc
      rw [show addToGroups m c a (g :: gs) =
          { g with hooks := g.hooks ++ [⟨c, a⟩] } :: gs by
        simp only [addToGroups, hm, if_true, hcont, Bool.false_eq_true, if_false]]
      rw [eventFlats_cons]
      apply List.mem_append_left
      unfold groupFlats
      dsimp only
      rw [List.map_append, ← hgm]
      simp
    | false =>
      rw [show addToGroups m c a (g :: gs) = g :: addToGroups m c a gs by
        simp [addToGroups, hm]]
      rw [eventFlats_cons]
      exact List.mem_append_right _
        (ih (fun g2 h2 => hnc g2 (List.mem_cons_of_mem g h2)))

theorem mem_readSettingsHooks_add (env : Env) (e m c : String) (a : Bool)
    (hs : HooksSection) (fh : FlatHook)
    (hmem : fh ∈ readSettingsHooks env (addHookToSettings e m c a hs)) :
    fh ∈ readSettingsHooks env hs ∨ fh = mkFlat env e m ⟨c, a⟩ := by
  induction hs with
  | nil =>
    right
    simpa [addHookToSettings, readSettingsHooks, eventFlats, groupFlats] using hmem
  | cons eg rest ih =>
    cases he : (eg.1 == e) with
    | true =>
      have heq : eg.1 = e := by simpa using he
      rw [show addHookToSettings e m c a (eg :: rest) =
          (eg.1, addToGroups m c a eg.2) :: rest by simp [addHookToSettings, he]] at hmem
      rw [readSettingsHooks_cons] at hmem
      rcases List.mem_append.mp hmem with h1 | h2
      · rcases mem_eventFlats_add env eg.1 m c a eg.2 fh h1 with h3 | h3
        · exact Or.inl (by rw [readSettingsHooks_cons]; exact List.mem_append_left _ h3)
        · exact Or.inr (by rwa [heq] at h3)
      · exact Or.inl (by rw [readSettingsHooks_cons]; exact List.mem_append_right _ h2)
    | false =>
      rw [show addHookToSettings e m c a (eg :: rest) =
          eg :: addHookToSettings e m c a rest by simp [addHookToSettings, he]] at hmem
      rw [readSettingsHooks_cons] at hmem
      rcases List.mem_append.mp hmem with h1 | h2
      · exact Or.inl (by rw [readSettingsHooks_cons]; exact List.mem_append_left _ h1)
      · rcases ih h2 with h3 | h3
        · exact Or.inl (by rw [readSettingsHooks_cons]; exact List.mem_append_right _ h3)
        · exact Or.inr h3

theorem mkFlat_mem_readSettingsHooks_add (env : Env) (e m c : String) (a : Bool)
    (hs : HooksSection) (hnc : noCmd c hs) :
    mkFlat env e m ⟨c, a⟩ ∈ readSettingsHooks env (addHookToSettings e m c a hs) := by
  induction hs with
  | nil => simp [addHookToSettings, readSettingsHooks, eventFlats, groupFlats]
  | cons eg rest ih =>
    cases he : (eg.1 == e) with
    | true =>
      have heq : eg.1 = e := by simpa using he
      rw [show addHookToSettings e m c a (eg :: rest) =
          (eg.1, addToGroups m c a eg.2) :: rest by simp [addHookToSettings, he]]
      rw [readSettingsHooks_cons]
      apply List.mem_append_left
      dsimp only
      rw [heq]
      have := mkFlat_mem_eventFlats_add env eg.1 m c a eg.2
        (hnc eg (List.mem_cons_self eg rest))
      rwa [heq] at this
    | false =>
      rw [show addHookToSettings e m c a (eg :: rest) =
          eg :: addHookToSettings e m c a rest by simp [addHookToSettings, he]]
      rw [readSettingsHooks_cons]
      exact List.mem_append_right _
        (ih (fun e2 h2 => hnc e2 (List.mem_cons_of_mem eg h2)))

theorem addToGroups_has (m c : String) (a : Bool) (gs : List MatcherGroup) :
    (addToGroups m c a gs).any (fun g => g.hooks.any (fun h => h.command == c)) = true := by
  induction gs with
  | nil => simp [addToGroups]
  | cons g gs ih =>
    cases hm : (g.matcher == m) with
    | true =>
      cases hcont : ((g.hooks.map HookEntry.command).contains c) with
      | true =>
        have hc : c ∈ g.hooks.map HookEntry.command := (contains_true_iff _ _).mp hcont
        obtain ⟨h, hh, hhc⟩ := List.mem_map.mp hc
        simp only [addToGroups, hm, if_true, hcont, List.any_cons]
        have : g.hooks.any (fun h => h.command == c) = true :=
          List.any_eq_true.mpr ⟨h, hh, by simp [hhc]⟩
        simp [this]
      | false =>
        simp only [addToGroups, hm, if_true, hcont, Bool.false_eq_true, if_false,
          List.any_cons]
        have : ({ g with hooks := g.hooks ++ [⟨c, a⟩] } : MatcherGroup).hooks.any
            (fun h => h.command == c) = true := by
          simp
        simp [this]
    | false =>
      simp only [addToGroups, hm, Bool.false_eq_true, if_false, List.any_cons, ih]
      simp

theorem addHookToSettings_has (e m c : String) (a : Bool) (hs : HooksSection) :
    settingsHasCommand c (addHookToSettings e m c a hs) = true := by
  induction hs with
  | nil => simp [addHookToSettings, settingsHasCommand]
  | cons eg rest ih =>
    cases he : (eg.1 == e) with
    | true =>
      simp only [addHookToSettings, he, if_true, settingsHasCommand, List.any_cons]
      have := addToGroups_has m c a eg.2
      simp [this]
    | false =>
      simp only [addHookToSettings, he, Bool.false_eq_true, if_false,
        settingsHasCommand, List.any_cons]
      rw [settingsHasCommand] at ih
      simp [ih]

theorem findRegistryEntry_cons (name : String) (x : RegHook) (xs : List RegHook) :
    findRegistryEntry name (x :: xs) =
      if x.name == name then some x else findRegistryEntry name xs := by
  cases hx : (x.name == name) with
  | true => simp [findRegistryEntry, List.find?_cons, hx]
  | false => simp [findRegistryEntry, List.find?_cons, hx]

theorem setManagedTrueFirst_find (name : String) (reg : List RegHook) (r : RegHook)
    (h : findRegistryEntry name reg = some r) :
    findRegistryEntry name (setManagedTrueFirst name reg) =
      some { r with managed := true } := by
  induction reg with
  | nil => simp [findRegistryEntry] at h
  | cons x xs ih =>
    rw [findRegistryEntry_cons] at h
    cases hx : (x.name == name) with
    | true =>
      simp only [hx, if_true] at h
      cases h
      simp only [setManagedTrueFirst, hx, if_true]
      rw [findRegistryEntry_cons]
      simp [hx]
    | false =>
      simp only [hx, Bool.false_eq_true, if_false] at h
      simp only [setManagedTrueFirst, hx, Bool.false_eq_true, if_false]
      rw [findRegistryEntry_cons]
      simp only [hx, Bool.false_eq_true, if_false]
      exact ih h

theorem setManagedTrueFirst_names (name : String) (reg : List RegHook) :
    (setManagedTrueFirst name reg).map RegHook.name = reg.map RegHook.name := by
  induction reg with
  | nil => rfl
  | cons x xs ih =>
    cases hx : (x.name == name) with
    | true =>
      have : x.name = name := by simpa using hx
      simp [setManagedTrueFirst, hx, this, ih]
    | false => simp [setManagedTrueFirst, hx, ih]

/-- C4 as stated is false: for a Hook that is already active (its command
already present in the live store), `enable` leaves the live store
unchanged, and the following `disable` removes the hook and prunes the
emptied group and event — so the live store does not return to its
pre-enable state. -/
theorem C4_counterexample :
    (hookEnableItem envW ("h") st4).1.success = true ∧
    (hookDisableItem envW ("h") (hookEnableItem envW ("h") st4).2).1.success = true ∧
    (hookDisableItem envW ("h") (hookEnableItem envW ("h") st4).2).2.settings = [] ∧
    st4.settings ≠ [] :=
  ⟨by decide, by decide, by decide, by decide⟩

/-- C4 amended: for a Hook present in the registry with a usable
event/command, whose derived name matches its registry name, whose command
does not yet appear in the (well-formed) live store, `enable` followed by
`disable` restores the live store's trigger-group list exactly — including
removal of the trigger group and event bucket the enable created — while
the registry keeps the hook's entry (only its `managed` flag is set). -/
theorem C4_amended (env : Env) (name : String) (st : HookState) (r : RegHook)
    (hfind : findRegistryEntry name st.registry = some r)
    (hev : (r.event == "") = false) (hcmd : (r.command == "") = false)
    (hname : managerExtractHookName env r.command = name)
    (habsent : ∀ fh ∈ readSettingsHooks env st.settings, fh.name ≠ name)
    (hwf : wfSection st.settings) :
    (hookDisableItem env name (hookEnableItem env name st).2).1.success = true ∧
    (hookDisableItem env name (hookEnableItem env name st).2).2.settings =
      st.settings ∧
    (hookDisableItem env name (hookEnableItem env name st).2).2.registry =
      setManagedTrueFirst name st.registry ∧
    findRegistryEntry name
      (hookDisableItem env name (hookEnableItem env name st).2).2.registry =
      some { r with managed := true } ∧
    (hookDisableItem env name (hookEnableItem env name st).2).2.registry.map
      RegHook.name = st.registry.map RegHook.name := by
  have hen : (hookEnableItem env name st).2 =
      { settings := addHookToSettings r.event r.matcher r.command r.async st.settings
        registry := setManagedTrueFirst name st.registry } := by
    simp [hookEnableItem, hfind, hev, hcmd]
  set st1 := (hookEnableItem env name st).2 with hst1
  have hnc : noCmd r.command st.settings := by
    intro eg heg g hg h hh hhc
    have hflat := mkFlat_mem_readSettingsHooks env st.settings heg hg hh
    have hfn : (mkFlat env eg.1 g.matcher h).name = name := by
      simp [mkFlat, hhc, hname]
    exact habsent _ hflat hfn
  have hnew : mkFlat env r.event r.matcher ⟨r.command, r.async⟩ ∈
      readSettingsHooks env st1.settings := by
    rw [hen]
    exact mkFlat_mem_readSettingsHooks_add env r.event r.matcher r.command r.async
      st.settings hnc
  have hnewname : (mkFlat env r.event r.matcher ⟨r.command, r.async⟩).name = name := by
    simp [mkFlat, hname]
  obtain ⟨fh, hfh⟩ : ∃ fh, findSettingsEntry name (readSettingsHooks env st1.settings) =
      some fh := by
    cases hf : findSettingsEntry name (readSettingsHooks env st1.settings) with
    | some fh => exact ⟨fh, rfl⟩
    | none =>
      exfalso
      have := List.find?_eq_none.mp hf _ hnew
      simp [hnewname] at this
  have hfhname : fh.name = name := by
    have := List.find?_some hfh
    simpa using this
  have hfhmem := List.mem_of_find?_eq_some hfh
  have hfhcmd : fh.command = r.command := by
    rw [hen] at hfhmem
    rcases mem_readSettingsHooks_add env r.event r.matcher r.command r.async
      st.settings fh hfhmem with hold | hnewf
    · exact absurd hfhname (habsent fh hold)
    · rw [hnewf]
      rfl
  have hdis : hookDisableItem env name st1 =
      ({ success := true, message := ("Disabled hook: ") ++ name },
       { st1 with settings := (removeHookFromSettings fh.command st1.settings).1 }) := by
    simp [hookDisableItem, hfh]
  have hhas := addHookToSettings_has r.event r.matcher r.command r.async st.settings
  have hset : (removeHookFromSettings fh.command st1.settings).1 = st.settings := by
    rw [hfhcmd, hen]
    show (removeHookFromSettings r.command
      (addHookToSettings r.event r.matcher r.command r.async st.settings)).1 = _
    unfold removeHookFromSettings
    rw [hhas]
    exact cleanup_add r.command r.event r.matcher r.async st.settings hwf hnc
  refine ⟨?_, ?_, ?_, ?_, ?_⟩
  · rw [hdis]
  · rw [hdis]
    exact hset
  · rw [hdis, hen]
  · rw [hdis, hen]
    exact setManagedTrueFirst_find name st.registry r hfind
  · rw [hdis, hen]
    exact setManagedTrueFirst_names name st.registry

/-- Witness for C4's amended statement at a concrete state: hook `h`
registered but not active, one unrelated live hook `z`. -/
theorem C4_witness :
    managerExtractHookName envW cmd4 = ("h") ∧
    (∀ fh ∈ readSettingsHooks envW st5.settings, fh.name ≠ ("h")) ∧
    wfSection st5.settings ∧
    (hookDisableItem envW ("h") (hookEnableItem envW ("h") st5).2).2.settings =
      st5.settings ∧
    (hookDisableItem envW ("h") (hookEnableItem envW ("h") st5).2).2.registry.map
      RegHook.name = st5.registry.map RegHook.name := by
  have h := C4_amended envW ("h") st5
    { name := ("h"), event := ("SessionStart"), matcher := ("*"), async := false
      managed := false, description := "", command := cmd4 }
    (by decide) (by decide) (by decide) (by decide) (by decide) (by decide)
  exact ⟨by decide, by decide, by decide, h.2.1, h.2.2.2.2⟩

end SuperManager
